import Mathlib

set_option maxHeartbeats 1000000
set_option maxRecDepth 4000

/- Verification of the usemcp adapter normalization/merge layer and lock store.

   The embedding models the repository's data layer:
   * `J` is the generic document-tree value type used for JSON, JSONC and TOML
     documents.  Object nodes additionally carry the list of comment tokens that
     the `comment-json` library attaches to them via symbol properties (these
     lists are always empty for documents produced by the plain `JSON.parse`
     and `@iarna/toml` parsers, which discard no comments because their inputs
     cannot contain any).
   * A config file's on-disk state is `FS`: absent, unparseable in the
     adapter's expected serialization, or a parsed document.  Raw text and the
     byte-level serialization are not modelled; "byte-identical in value" is
     read as equality of parsed values, which is what a re-serialization
     preserves.
   * Fallible operations return `Except AdapterError _`.  JavaScript `throw`
     of the adapters' `Error` objects is modelled by the corresponding
     constructor carrying the thrown message or path.  A strict-mode
     `TypeError` (assigning a property on a primitive) is `AdapterError.typeErr`.
   * JS property access on non-objects yields `undefined`, modelled as `none`;
     truthiness of a JSON value is `jTruthy`.  The unchecked TypeScript casts
     (`as string`, `as string[]`) are modelled by total extractors that default
     to `""` / `[]` exactly where the JS `||` fallbacks do; values that the
     casts would pass through with a wrong runtime type are outside the typed
     model and are noted at the definition concerned. -/

/-- Generic document value (JSON / JSONC / TOML).  `obj kvs cs` is an object
node with entries `kvs` in insertion order and attached comment tokens `cs`. -/
inductive J : Type where
  | null : J
  | bool (b : Bool) : J
  | num (n : Int) : J
  | str (s : String) : J
  | arr (xs : List J) : J
  | obj (kvs : List (String × J)) (cs : List String) : J

/-- Association-list lookup (first occurrence), the JS object property read. -/
def aget {α : Type} : List (String × α) → String → Option α
  | [], _ => none
  | (k', v) :: t, k => if k' = k then some v else aget t k

/-- Association-list update: replace the first binding of `k`, else append.
This is JS property assignment / object-spread override order. -/
def aset {α : Type} : List (String × α) → String → α → List (String × α)
  | [], k, v => [(k, v)]
  | (k', v') :: t, k, v => if k' = k then (k, v) :: t else (k', v') :: aset t k v

/-- Association-list deletion, the `const { [k]: _, ...rest }` destructuring. -/
def adel {α : Type} : List (String × α) → String → List (String × α)
  | [], _ => []
  | (k', v) :: t, k => if k' = k then adel t k else (k', v) :: adel t k

/-- JS property access `v.k`: `undefined` (`none`) unless `v` is an object. -/
def jGet : J → String → Option J
  | .obj kvs _, k => aget kvs k
  | _, _ => none

/-- JS falsiness of a document value (`null`, `false`, `0`, `""`). -/
def jFalsy : J → Bool
  | .null => true
  | .bool b => !b
  | .num n => n == 0
  | .str s => s == ""
  | .arr _ => false
  | .obj _ _ => false

def jTruthy (v : J) : Bool := !jFalsy v

def jEmptyObj : J := .obj [] []

/-- Model of `(parsed.<key> as Record<string, unknown>) || {}`: the adapter's server-map
extraction from a parsed document. -/
def serversOf (j : J) (key : String) : J :=
  match jGet j key with
  | none => jEmptyObj
  | some v => if jFalsy v then jEmptyObj else v

/-- Model of `Object.entries`: entries of an object, index/element pairs of an array,
and nothing for other values (the string character-indexing quirk of JS is not
modelled; no claim depends on it). -/
def jEntries : J → List (String × J)
  | .obj kvs _ => kvs
  | .arr xs => xs.enum.map (fun p => (toString p.1, p.2))
  | _ => []

/-- Object spread `{...servers, [name]: v}`.  Spreading copies the enumerable
own properties of `servers`, including the symbol-keyed comment tokens, and
overrides/appends the binding for `name`.  Spreading a primitive contributes
no string-keyed entries. -/
def jSpreadInsert : J → String → J → J
  | .obj kvs cs, k, v => .obj (aset kvs k v) cs
  | _, k, v => .obj [(k, v)] []

/-- The string a TS `as string` cast followed by `|| ''` produces from a JSON
value: the string itself when it is one, `''` otherwise (non-string truthy
values, which the unchecked cast would leak through, are outside the typed
model). -/
def jStrOr (v : Option J) : String :=
  match v with
  | some (.str s) => s
  | _ => ""

/-- Model of `(config.args as string[]) || []` over a JSON value. -/
def jStrListOr (v : Option J) : List String :=
  match v with
  | some (.arr xs) => xs.map (fun x => jStrOr (some x))
  | _ => []

/-- A string-valued record field (`env`, `headers`): present when the value is
an object, absent (`undefined`/`null` cast) otherwise. -/
def jStrMapOr (v : Option J) : Option (List (String × String)) :=
  match v with
  | some (.obj kvs _) => some (kvs.map (fun p => (p.1, jStrOr (some p.2))))
  | _ => none

/-- An optional string field (`cwd`). -/
def jStrOpt (v : Option J) : Option String :=
  match v with
  | some (.str s) => some s
  | _ => none

/-- Embed a string map as a JSON object value. -/
def jOfStrMap (m : List (String × String)) : J :=
  .obj (m.map (fun p => (p.1, .str p.2))) []

-- ===================== Canonical model (src/types.ts) =====================

/-- Transport sum type of `NormalizedServer` (src/types.ts). -/
inductive Transport : Type where
  | stdio (command : String) (args : List String)
      (env : Option (List (String × String))) (cwd : Option String)
  | http (url : String) (headers : Option (List (String × String)))
  | sse (url : String) (headers : Option (List (String × String)))
deriving DecidableEq, Repr

/-- Model of `SecretField` (src/types.ts). -/
structure SecretField : Type where
  name : String
  description : Option String
  required : Bool
deriving DecidableEq, Repr

/-- Model of `NormalizedServer` (src/types.ts). -/
structure NormalizedServer : Type where
  id : String
  displayName : String
  description : Option String := none
  transport : Transport
  secrets : List SecretField
deriving DecidableEq, Repr

inductive Scope : Type where
  | project
  | user
deriving DecidableEq, Repr

inductive SourceType : Type where
  | registry
  | git
  | local
deriving DecidableEq, Repr

structure SourceInfo : Type where
  type : SourceType
  url : String
  path : Option String := none
deriving DecidableEq, Repr

/-- Errors thrown by adapter operations (plain `Error` objects in the source;
the spec's taxonomy names them `UnsupportedScopeError` / `InvalidConfigError`).
`typeErr` is a strict-mode TypeError from assigning a property on a primitive. -/
inductive AdapterError : Type where
  | unsupportedScope (msg : String)
  | invalidConfig (path : String)
  | typeErr
deriving DecidableEq, Repr

/-- On-disk state of one adapter's config file. -/
inductive FS : Type where
  | absent
  | corrupt
  | doc (j : J)

-- ===================== String sorting (JS Array.prototype.sort) =====================

/-- Insertion into a sorted list under the string order; `sortStrings` models
the in-place `Array.prototype.sort()` applied to the secret-name list in
`generateMetadataHash` (default lexicographic string comparison). -/
def insertSorted (x : String) : List String → List String
  | [] => [x]
  | y :: t => if x ≤ y then x :: y :: t else y :: insertSorted x t

def sortStrings : List String → List String
  | [] => []
  | x :: t => insertSorted x (sortStrings t)

-- ===================== JSON.stringify fragment for the metadata hash =====================

/-- Model of `JSON.stringify` string escaping (quote and backslash; other control-char
escapes do not occur in the claims' inputs). -/
def jsonEscape (s : String) : String :=
  s.toList.foldl
    (fun acc c =>
      if c = '\\' then acc ++ "\\\\"
      else if c = '"' then acc ++ "\\\"" else acc.push c) ""

def jsonStr (s : String) : String := "\"" ++ jsonEscape s ++ "\""

def jsonStrList (l : List String) : String :=
  "[" ++ String.intercalate "," (l.map jsonStr) ++ "]"

def jsonStrPairs (m : List (String × String)) : String :=
  "\x7b" ++ String.intercalate "," (m.map (fun p => jsonStr p.1 ++ ":" ++ jsonStr p.2)) ++ "\x7d"

/-- Model of `JSON.stringify` of the transport object held in a `NormalizedServer`
(keys in construction order; `undefined` optional fields are omitted, exactly
as `JSON.stringify` drops them). -/
def transportJson : Transport → String
  | .stdio c a e w =>
      "\x7b\"type\":\"stdio\",\"command\":" ++ jsonStr c ++ ",\"args\":" ++ jsonStrList a
        ++ (match e with | some m => ",\"env\":" ++ jsonStrPairs m | none => "")
        ++ (match w with | some d => ",\"cwd\":" ++ jsonStr d | none => "") ++ "\x7d"
  | .http u h =>
      "\x7b\"type\":\"http\",\"url\":" ++ jsonStr u
        ++ (match h with | some m => ",\"headers\":" ++ jsonStrPairs m | none => "") ++ "\x7d"
  | .sse u h =>
      "\x7b\"type\":\"sse\",\"url\":" ++ jsonStr u
        ++ (match h with | some m => ",\"headers\":" ++ jsonStrPairs m | none => "") ++ "\x7d"

/-- The `JSON.stringify({id, transport, secrets})` input of
`generateMetadataHash` (src/lock.ts lines 50-54). -/
def metadataJson (server : NormalizedServer) : String :=
  "\x7b\"id\":" ++ jsonStr server.id
    ++ ",\"transport\":" ++ transportJson server.transport
    ++ ",\"secrets\":" ++ jsonStrList (sortStrings (server.secrets.map (fun s => s.name)))
    ++ "\x7d"

-- ===================== SHA-256 (node:crypto createHash('sha256')) =====================

def M32 : Nat := 4294967296

def rotr32 (k n : Nat) : Nat := ((n >>> k) ||| (n <<< (32 - k))) % M32

def bigSigma0 (x : Nat) : Nat := (rotr32 2 x) ^^^ (rotr32 13 x) ^^^ (rotr32 22 x)
def bigSigma1 (x : Nat) : Nat := (rotr32 6 x) ^^^ (rotr32 11 x) ^^^ (rotr32 25 x)
def smallSigma0 (x : Nat) : Nat := (rotr32 7 x) ^^^ (rotr32 18 x) ^^^ (x >>> 3)
def smallSigma1 (x : Nat) : Nat := (rotr32 17 x) ^^^ (rotr32 19 x) ^^^ (x >>> 10)
def chF (x y z : Nat) : Nat := (x &&& y) ^^^ ((x ^^^ 4294967295) &&& z)
def majF (x y z : Nat) : Nat := (x &&& y) ^^^ (x &&& z) ^^^ (y &&& z)

/-- The eight 32-bit words of a SHA-256 state. -/
structure H8 : Type where
  a : Nat
  b : Nat
  c : Nat
  d : Nat
  e : Nat
  f : Nat
  g : Nat
  h : Nat
deriving DecidableEq, Repr

def shaInit : H8 :=
  ⟨1779033703, 3144134277, 1013904242, 2773480762,
   1359893119, 2600822924, 528734635, 1541459225⟩

def sha256K : List Nat :=
  [1116352408, 1899447441, 3049323471, 3921009573, 961987163,
   1508970993, 2453635748, 2870763221, 3624381080, 310598401,
   607225278, 1426881987, 1925078388, 2162078206, 2614888103,
   3248222580, 3835390401, 4022224774, 264347078, 604807628,
   770255983, 1249150122, 1555081692, 1996064986, 2554220882,
   2821834349, 2952996808, 3210313671, 3336571891, 3584528711,
   113926993, 338241895, 666307205, 773529912, 1294757372,
   1396182291, 1695183700, 1986661051, 2177026350, 2456956037,
   2730485921, 2820302411, 3259730800, 3345764771, 3516065817,
   3600352804, 4094571909, 275423344, 430227734, 506948616,
   659060556, 883997877, 958139571, 1322822218, 1537002063,
   1747873779, 1955562222, 2024104815, 2227730452, 2361852424,
   2428436474, 2756734187, 3204031479, 3329325298]

def shaStep (st : H8) (wk : Nat × Nat) : H8 :=
  let t1 := (st.h + bigSigma1 st.e + chF st.e st.f st.g + wk.1 + wk.2) % M32
  let t2 := (bigSigma0 st.a + majF st.a st.b st.c) % M32
  ⟨(t1 + t2) % M32, st.a, st.b, st.c, (st.d + t1) % M32, st.e, st.f, st.g⟩

/-- 16 big-endian 32-bit words from 64 bytes. -/
def bytesToWords : List Nat → List Nat
  | b0 :: b1 :: b2 :: b3 :: rest => (((b0 * 256 + b1) * 256 + b2) * 256 + b3) :: bytesToWords rest
  | _ => []

def extendSchedule (ws : List Nat) : List Nat :=
  (List.range 48).foldl
    (fun acc _ =>
      let n := acc.length
      let x := (smallSigma1 (acc.getD (n - 2) 0) + acc.getD (n - 7) 0
                  + smallSigma0 (acc.getD (n - 15) 0) + acc.getD (n - 16) 0) % M32
      acc ++ [x]) ws

def compressBlock (h0 : H8) (block : List Nat) : H8 :=
  let st := ((extendSchedule (bytesToWords block)).zip sha256K).foldl shaStep h0
  ⟨(h0.a + st.a) % M32, (h0.b + st.b) % M32, (h0.c + st.c) % M32, (h0.d + st.d) % M32,
   (h0.e + st.e) % M32, (h0.f + st.f) % M32, (h0.g + st.g) % M32, (h0.h + st.h) % M32⟩

def padMessage (bytes : List Nat) : List Nat :=
  let len := bytes.length
  let zeros := (64 - ((len + 9) % 64)) % 64
  bytes ++ [128] ++ List.replicate zeros 0
    ++ (List.range 8).map (fun i => ((len * 8) >>> (8 * (7 - i))) % 256)

def toBlocks (l : List Nat) : List (List Nat) :=
  if h : l = [] then [] else l.take 64 :: toBlocks (l.drop 64)
termination_by l.length
decreasing_by
  simp only [List.length_drop]
  have : 0 < l.length := List.length_pos.mpr h
  omega

def sha256Of (s : String) : H8 :=
  (toBlocks (padMessage (s.toUTF8.toList.map (fun b => b.toNat)))).foldl compressBlock shaInit

def hexCharList : List Char := "0123456789abcdef".toList

def hexDigit (n : Nat) : Char := hexCharList.getD (n % 16) '0'

def hexNibbles : Nat → Nat → List Char
  | 0, _ => []
  | k + 1, w => hexDigit (w >>> (4 * k)) :: hexNibbles k w

def hexOfH8 (x : H8) : List Char :=
  hexNibbles 8 x.a ++ hexNibbles 8 x.b ++ hexNibbles 8 x.c ++ hexNibbles 8 x.d
    ++ hexNibbles 8 x.e ++ hexNibbles 8 x.f ++ hexNibbles 8 x.g ++ hexNibbles 8 x.h

/-- Model of `generateMetadataHash` (src/lock.ts lines 49-57): SHA-256 hex digest of
`metadataJson`, truncated by `.slice(0, 16)`. -/
def generateMetadataHash (server : NormalizedServer) : String :=
  String.mk ((hexOfH8 (sha256Of (metadataJson server))).take 16)

-- ===================== Lock store (src/lock.ts) =====================

/-- One element of a lock entry's `targets` array. -/
structure LockTarget : Type where
  agent : String
  scope : Scope
  installedName : String
deriving DecidableEq, Repr

/-- Model of `LockEntry` (src/types.ts). -/
structure LockEntry : Type where
  serverId : String
  source : SourceInfo
  version : Option String := none
  metadataHash : String
  targets : List LockTarget
  installedAt : String
  updatedAt : String
deriving DecidableEq, Repr

/-- Model of `LockFile` (src/types.ts); the servers map in insertion order. -/
structure LockFile : Type where
  version : Int
  servers : List (String × LockEntry)
deriving DecidableEq, Repr

/-- On-disk content of the lock file as `readLockFile` observes it after
`JSON.parse`: `corrupt` covers an absent or unreadable file, unparseable JSON
and a non-object document (every case in which the `try` block or the
subsequent property accesses throw); otherwise the parsed object with
`version := none` when the `version` field is absent or not a number, and
`servers := none` when the `servers` field is absent or falsy. -/
inductive LockDisk : Type where
  | corrupt
  | doc (version : Option Int) (servers : Option (List (String × LockEntry)))
deriving DecidableEq, Repr

/-- Model of `CURRENT_LOCK_VERSION` (src/lock.ts line 9). -/
def CURRENT_LOCK_VERSION : Int := 1

/-- Model of `readLockFile` (src/lock.ts lines 15-36). -/
def readLockFile : LockDisk → LockFile
  | .corrupt => ⟨CURRENT_LOCK_VERSION, []⟩
  | .doc none _ => ⟨CURRENT_LOCK_VERSION, []⟩
  | .doc (some _) none => ⟨CURRENT_LOCK_VERSION, []⟩
  | .doc (some v) (some s) =>
      if v < CURRENT_LOCK_VERSION then ⟨CURRENT_LOCK_VERSION, s⟩ else ⟨v, s⟩

/-- Model of `writeLockFile` (src/lock.ts lines 38-47): serializes the lock file back. -/
def writeLockFile (lf : LockFile) : LockDisk := .doc (some lf.version) (some lf.servers)

/-- Model of `prev?.installedAt || now`: JS `||` falls through on `undefined` and `''`. -/
def strOrElse (v : Option String) (d : String) : String :=
  match v with
  | some s => if s = "" then d else s
  | none => d

/-- Model of `addLockEntry` (src/lock.ts lines 59-82).  `now` stands for the
`new Date().toISOString()` timestamp taken during the call. -/
def addLockEntry (d : LockDisk) (serverId : String) (source : SourceInfo)
    (server : NormalizedServer) (targets : List LockTarget) (now : String) : LockDisk :=
  let lock := readLockFile d
  let entry : LockEntry :=
    { serverId := serverId
      source := source
      version := if source.type = .registry then some "latest" else none
      metadataHash := generateMetadataHash server
      targets := targets
      installedAt := strOrElse ((aget lock.servers serverId).map LockEntry.installedAt) now
      updatedAt := now }
  writeLockFile { lock with servers := aset lock.servers serverId entry }

/-- Model of `removeLockEntry` (src/lock.ts lines 84-88). -/
def removeLockEntry (d : LockDisk) (serverId : String) : LockDisk :=
  let lock := readLockFile d
  writeLockFile { lock with servers := adel lock.servers serverId }

/-- Model of `updateLockEntryTargets` (src/lock.ts lines 100-112). -/
def updateLockEntryTargets (d : LockDisk) (serverId : String)
    (targets : List LockTarget) (now : String) : LockDisk :=
  let lock := readLockFile d
  match aget lock.servers serverId with
  | none => d
  | some e =>
      writeLockFile
        { lock with servers := aset lock.servers serverId { e with targets := targets, updatedAt := now } }

/-- A concrete lock entry used by the C5 counterexample. -/
def lockEntry0 : LockEntry :=
  ⟨"srv", ⟨.registry, "https://reg", none⟩, none, "0123456789abcdef", [],
   "2024-01-01T00:00:00Z", "2024-01-01T00:00:00Z"⟩

-- ===================== Manifest parser (src/manifests/server-json.ts) =====================

/-- Errors of `parseServerJson`: the two `throw new Error(...)` sites are the
spec taxonomy's `ValidationError`; `typeErr` is the uncaught TypeError raised
when `manifest.secrets?.map` is called on a present, non-null, non-array
`secrets` value. -/
inductive ManifestError : Type where
  | validationError (msg : String)
  | typeErr
deriving DecidableEq, Repr

/-- Model of `typeof manifest === 'object' && manifest !== null` (JS arrays have
`typeof` `'object'`). -/
def jIsObjectTyped : J → Bool
  | .obj _ _ => true
  | .arr _ => true
  | _ => false

/-- Model of `validateServerJson` (src/manifests/server-json.ts lines 32-64). -/
def validateServerJson (v : J) : Bool :=
  jIsObjectTyped v
  && (match jGet v "name" with
      | some (.str s) => s != ""
      | _ => false)
  && (match jGet v "transport" with
      | some (.str t) => t == "stdio" || t == "http" || t == "sse"
      | _ => false)
  && (match jGet v "transport" with
      | some (.str t) =>
          if t == "stdio" then
            (match jGet v "command" with
             | some (.str c) => c != ""
             | _ => false)
            && (match jGet v "args" with
                | none => true
                | some (.arr _) => true
                | some _ => false)
          else
            (match jGet v "url" with
             | some (.str u) => u != ""
             | _ => false)
      | _ => true)

/-- Model of `s.required ?? true`: `??` only replaces `null`/`undefined`; any other
value flows on and is consumed as a boolean, mirrored here by truthiness. -/
def secretRequired (v : Option J) : Bool :=
  match v with
  | none => true
  | some .null => true
  | some w => jTruthy w

/-- One element of the `secrets` array (the TS code copies `name` and
`description` without runtime checks; non-string values, which the unchecked
types would leak through, are outside the typed model). -/
def secretOfJson (e : J) : SecretField :=
  { name := jStrOr (jGet e "name")
    description := jStrOpt (jGet e "description")
    required := secretRequired (jGet e "required") }

/-- Model of `normalizeServerJson` (src/manifests/server-json.ts lines 70-113) over the
parsed JSON value.  `none` marks the places where the TS code throws outside
`validateServerJson`: the unreachable unknown-transport `throw`, and
`manifest.secrets?.map` applied to a present, non-null, non-array value. -/
def normalizeServerJson (v : J) : Option NormalizedServer :=
  let transport? : Option Transport :=
    match jGet v "transport" with
    | some (.str "stdio") =>
        some (.stdio (jStrOr (jGet v "command")) (jStrListOr (jGet v "args"))
          (jStrMapOr (jGet v "env")) (jStrOpt (jGet v "cwd")))
    | some (.str "http") =>
        some (.http (jStrOr (jGet v "url")) (jStrMapOr (jGet v "headers")))
    | some (.str "sse") =>
        some (.sse (jStrOr (jGet v "url")) (jStrMapOr (jGet v "headers")))
    | _ => none
  let secrets? : Option (List SecretField) :=
    match jGet v "secrets" with
    | none => some []
    | some .null => some []
    | some (.arr xs) => some (xs.map secretOfJson)
    | some _ => none
  match transport?, secrets? with
  | some t, some s =>
      some { id := jStrOr (jGet v "name"), displayName := jStrOr (jGet v "name"),
             description := jStrOpt (jGet v "description"), transport := t, secrets := s }
  | _, _ => none

/-- Model of `parseServerJson` (src/manifests/server-json.ts lines 115-128); the
`JSON.parse` boundary is modelled by taking `none` for ill-formed input text. -/
def parseServerJson (input : Option J) : Except ManifestError NormalizedServer :=
  match input with
  | none => .error (.validationError "Invalid JSON")
  | some v =>
      if validateServerJson v then
        match normalizeServerJson v with
        | some s => .ok s
        | none => .error .typeErr
      else .error (.validationError "Invalid server.json manifest")

-- Spec-side formalizations of the claim's validation-failure conditions.

/-- Claim wording: field `k` "is missing/empty" (absent, not a string, or the
empty string). -/
def fieldMissingOrEmptyStr (v : J) (k : String) : Bool :=
  match jGet v k with
  | some (.str s) => s == ""
  | _ => true

/-- Claim wording: "transport is not one of stdio/http/sse". -/
def transportUnknown (v : J) : Bool :=
  match jGet v "transport" with
  | some (.str t) => !(t == "stdio" || t == "http" || t == "sse")
  | _ => true

def transportIs (v : J) (t : String) : Bool :=
  match jGet v "transport" with
  | some (.str t') => t' == t
  | _ => false

/-- Amendment: "args is present but not an array". -/
def argsPresentNotArray (v : J) : Bool :=
  match jGet v "args" with
  | none => false
  | some (.arr _) => false
  | some _ => true

/-- The validation-failure condition exactly as claim C6 states it. -/
def claimedRejected (v : J) : Bool :=
  fieldMissingOrEmptyStr v "name"
  || transportUnknown v
  || (transportIs v "stdio" && fieldMissingOrEmptyStr v "command")
  || ((transportIs v "http" || transportIs v "sse") && fieldMissingOrEmptyStr v "url")

/-- The validation-failure condition as amended: the claim's list plus the
args-must-be-an-array check the code also enforces. -/
def manifestRejected (v : J) : Bool :=
  fieldMissingOrEmptyStr v "name"
  || transportUnknown v
  || (transportIs v "stdio" && (fieldMissingOrEmptyStr v "command" || argsPresentNotArray v))
  || ((transportIs v "http" || transportIs v "sse") && fieldMissingOrEmptyStr v "url")

/-- The claim's failure condition as amended, over the `JSON.parse` boundary. -/
def amendedInvalid (input : Option J) : Bool :=
  match input with
  | none => true
  | some v => manifestRejected v

-- Transport field extractors used to state the round-trip and default claims.

def transportCommand : Transport → Option String
  | .stdio c _ _ _ => some c
  | _ => none

def transportArgs : Transport → Option (List String)
  | .stdio _ a _ _ => some a
  | _ => none

def transportEnv : Transport → Option (List (String × String))
  | .stdio _ _ e _ => e
  | _ => none

def transportUrl : Transport → Option String
  | .http u _ => some u
  | .sse u _ => some u
  | _ => none

def transportHeaders : Transport → Option (List (String × String))
  | .http _ h => h
  | .sse _ h => h
  | _ => none

/-- A concrete manifest used by the C6 witness. -/
def sampleManifest : J :=
  .obj [("name", .str "io.github.acme/echo"), ("transport", .str "stdio"),
        ("command", .str "node"),
        ("secrets", .arr [.obj [("name", .str "API_KEY")] []])] []

/-- A stdio manifest whose `args` field is the number 5. -/
def manifestArgsNum : J :=
  .obj [("name", .str "x"), ("transport", .str "stdio"),
        ("command", .str "c"), ("args", .num 5)] []

-- ===================== Agent adapters (src/agents/*) =====================

inductive Platform : Type where
  | darwin
  | win32
  | linux
deriving DecidableEq, Repr

/-- Environment of the path computations: home directory, working directory,
the resolved `CLAUDE_CONFIG_DIR`/`CODEX_HOME` overrides, the resolved
XDG config dir for opencode, the OS platform, and whether
`<cwd>/opencode.jsonc` exists (probed by opencode's `getConfigPath`). -/
structure PathCtx : Type where
  home : String
  cwd : String
  claudeConfigDir : String
  codexHome : String
  opencodeConfigDir : String
  plat : Platform
  opencodeJsoncExists : Bool
deriving Repr

/-- Model of `path.join` restricted to the forward-slash shape the adapters use. -/
def pjoin (a b : String) : String := a ++ "/" ++ b

/-- Splitting a character list at every occurrence of `sep`: the semantics of
JS `String.prototype.split` with a single-character separator. -/
def splitOnChar (sep : Char) : List Char → List (List Char)
  | [] => [[]]
  | c :: cs =>
      if c = sep then [] :: splitOnChar sep cs
      else
        match splitOnChar sep cs with
        | [] => [[c]]
        | h :: t => (c :: h) :: t

/-- Model of `server.id.split('/').pop() || server.id`: the installed-name computation
every adapter's `addServer` performs (`pop` of a split is its last element,
and `||` falls back to the whole id when that element is the empty string). -/
def serverNameOf (id : String) : String :=
  let seg := String.mk ((splitOnChar '/' id.toList).getLastD [])
  if seg = "" then id else seg

/-- The installed name exactly as claim C7 describes it: the text after the
final `/` when the id contains one, the whole id otherwise. -/
def claimedInstalledName (id : String) : String :=
  if '/' ∈ id.toList then String.mk ((splitOnChar '/' id.toList).getLastD []) else id

inductive Agent : Type where
  | claudeCode
  | claudeDesktop
  | codex
  | opencode
deriving DecidableEq, Repr

def supportedScopesOf : Agent → List Scope
  | .claudeCode => [.project, .user]
  | .claudeDesktop => [.user]
  | .codex => [.project, .user]
  | .opencode => [.project, .user]

def claudeCodeGetConfigPath (ctx : PathCtx) : Scope → String
  | .project => pjoin ctx.cwd ".mcp.json"
  | .user => pjoin ctx.claudeConfigDir "config.json"

def claudeDesktopConfigPath (ctx : PathCtx) : String :=
  match ctx.plat with
  | .darwin => pjoin ctx.home "Library/Application Support/Claude/claude_desktop_config.json"
  | .win32 => pjoin ctx.home "AppData/Roaming/Claude/claude_desktop_config.json"
  | .linux => pjoin ctx.home ".config/Claude/claude_desktop_config.json"

/-- Model of `claudeDesktopAdapter.getConfigPath` (src/agents/claude-desktop.ts lines
74-79): throws unless the scope is `user`. -/
def claudeDesktopGetConfigPath (ctx : PathCtx) : Scope → Except AdapterError String
  | .user => .ok (claudeDesktopConfigPath ctx)
  | .project => .error (.unsupportedScope "Claude Desktop only supports user scope")

def codexGetConfigPath (ctx : PathCtx) : Scope → String
  | .project => pjoin ctx.cwd ".codex/config.toml"
  | .user => pjoin ctx.codexHome "config.toml"

def opencodeGetConfigPath (ctx : PathCtx) : Scope → String
  | .project =>
      if ctx.opencodeJsoncExists then pjoin ctx.cwd "opencode.jsonc"
      else pjoin ctx.cwd "opencode.json"
  | .user => pjoin ctx.opencodeConfigDir "opencode.json"

def getConfigPathOf (a : Agent) (ctx : PathCtx) (scope : Scope) : Except AdapterError String :=
  match a with
  | .claudeCode => .ok (claudeCodeGetConfigPath ctx scope)
  | .claudeDesktop => claudeDesktopGetConfigPath ctx scope
  | .codex => .ok (codexGetConfigPath ctx scope)
  | .opencode => .ok (opencodeGetConfigPath ctx scope)

/-- The read path shared by the claude-code, claude-desktop and codex adapters
(their `readConfig` differs only in path and server-map key): an absent file is
an empty result, an unparseable one is `InvalidConfigError` naming the path,
and otherwise the server-map subtree is extracted with `|| {}` (the `raw` text
the TS interface also returns is not used by any claim and is not modelled).
A file whose parse result is the literal `null` makes the property access
throw. -/
def readServerMap (path : String) (st : FS) (key : String) : Except AdapterError J :=
  match st with
  | .absent => .ok jEmptyObj
  | .corrupt => .error (.invalidConfig path)
  | .doc .null => .error .typeErr
  | .doc j => .ok (serversOf j key)

/-- The write path shared by the claude-code, claude-desktop and codex
adapters (`writeConfig`): re-read the existing file, treating absence or
corruption as the empty document, set the adapter's server-map key, and
re-serialize the whole document.  Assigning the key on a parsed primitive
throws in strict mode; assigning it on a parsed array attaches a property the
serializer does not emit, so the file is rewritten unchanged. -/
def writeServerMap (st : FS) (key : String) (servers : J) : Except AdapterError J :=
  match st with
  | .absent => .ok (.obj [(key, servers)] [])
  | .corrupt => .ok (.obj [(key, servers)] [])
  | .doc (.obj kvs cs) => .ok (.obj (aset kvs key servers) cs)
  | .doc (.arr xs) => .ok (.arr xs)
  | .doc _ => .error .typeErr

-- ---------- Claude Code (src/agents/claude-code.ts) ----------

/-- Model of `normalizedToClaudeConfig` (lines 16-38): explicit `type` tag, optional
fields only when present. -/
def normalizedToClaudeConfig (server : NormalizedServer) : J :=
  match server.transport with
  | .stdio c a e w =>
      .obj ([("type", .str "stdio"), ("command", .str c), ("args", .arr (a.map .str))]
        ++ (match e with | some m => [("env", jOfStrMap m)] | none => [])
        ++ (match w with | some d => [("cwd", .str d)] | none => [])) []
  | .http u h =>
      .obj ([("type", .str "http"), ("url", .str u)]
        ++ (match h with | some m => [("headers", jOfStrMap m)] | none => [])) []
  | .sse u h =>
      .obj ([("type", .str "sse"), ("url", .str u)]
        ++ (match h with | some m => [("headers", jOfStrMap m)] | none => [])) []

/-- Model of `claudeConfigToNormalized` (lines 40-72): dispatch on the `type` tag;
anything that is neither `'stdio'` nor `'http'` falls into the sse branch. -/
def claudeConfigToNormalized (name : String) (config : J) : NormalizedServer :=
  match jGet config "type" with
  | some (.str "stdio") =>
      ⟨name, name, none,
        .stdio (jStrOr (jGet config "command")) (jStrListOr (jGet config "args"))
          (jStrMapOr (jGet config "env")) (jStrOpt (jGet config "cwd")), []⟩
  | some (.str "http") =>
      ⟨name, name, none,
        .http (jStrOr (jGet config "url")) (jStrMapOr (jGet config "headers")), []⟩
  | _ =>
      ⟨name, name, none,
        .sse (jStrOr (jGet config "url")) (jStrMapOr (jGet config "headers")), []⟩

def claudeCodeReadConfig (ctx : PathCtx) (scope : Scope) (st : FS) : Except AdapterError J :=
  readServerMap (claudeCodeGetConfigPath ctx scope) st "mcpServers"

def claudeCodeWriteConfig (st : FS) (servers : J) : Except AdapterError J :=
  writeServerMap st "mcpServers" servers

/-- The per-entry `try/catch` of every adapter's `listInstalled`: only a
`null` entry value makes the reverse transform's property accesses throw,
degrading to the placeholder server with command `unknown`. -/
def placeholderServer (name : String) : NormalizedServer :=
  ⟨name, name, none, .stdio "unknown" [] none none, []⟩

def entryOrPlaceholder (f : String → J → NormalizedServer) (name : String) (v : J) :
    NormalizedServer :=
  match v with
  | .null => placeholderServer name
  | _ => f name v

def claudeCodeListInstalled (ctx : PathCtx) (scope : Scope) (st : FS) :
    Except AdapterError (List (String × NormalizedServer)) := do
  let servers ← claudeCodeReadConfig ctx scope st
  pure ((jEntries servers).map
    (fun p => (p.1, entryOrPlaceholder claudeConfigToNormalized p.1 p.2)))

def claudeCodeAddServer (ctx : PathCtx) (scope : Scope) (st : FS) (server : NormalizedServer) :
    Except AdapterError FS := do
  let servers ← claudeCodeReadConfig ctx scope st
  let newServers := jSpreadInsert servers (serverNameOf server.id) (normalizedToClaudeConfig server)
  let out ← claudeCodeWriteConfig st newServers
  pure (.doc out)

/-- Model of `const { [serverKey]: _, ...rest } = servers`. -/
def jSpreadDelete : J → String → J
  | .obj kvs cs, k => .obj (adel kvs k) cs
  | _, _ => jEmptyObj

def claudeCodeRemoveServer (ctx : PathCtx) (scope : Scope) (st : FS) (serverKey : String) :
    Except AdapterError FS := do
  let servers ← claudeCodeReadConfig ctx scope st
  let out ← claudeCodeWriteConfig st (jSpreadDelete servers serverKey)
  pure (.doc out)

-- ---------- Claude Desktop (src/agents/claude-desktop.ts, first half) ----------

/-- Model of `normalizedToDesktopConfig` (lines 29-44): stdio only, no `type` tag, `cwd`
dropped; `none` stands for the throw on a non-stdio transport (its only caller
guards first). -/
def normalizedToDesktopConfig (server : NormalizedServer) : Option J :=
  match server.transport with
  | .stdio c a e _ =>
      some (.obj ([("command", .str c), ("args", .arr (a.map .str))]
        ++ (match e with | some m => [("env", jOfStrMap m)] | none => [])) [])
  | _ => none

/-- Model of `desktopConfigToNormalized` (lines 46-61). -/
def desktopConfigToNormalized (name : String) (config : J) : NormalizedServer :=
  ⟨name, name, none,
    .stdio (jStrOr (jGet config "command")) (jStrListOr (jGet config "args"))
      (jStrMapOr (jGet config "env")) none, []⟩

def claudeDesktopReadConfig (ctx : PathCtx) (scope : Scope) (st : FS) : Except AdapterError J :=
  match claudeDesktopGetConfigPath ctx scope with
  | .error e => .error e
  | .ok path => readServerMap path st "mcpServers"

def claudeDesktopWriteConfig (ctx : PathCtx) (scope : Scope) (st : FS) (servers : J) :
    Except AdapterError J :=
  match claudeDesktopGetConfigPath ctx scope with
  | .error e => .error e
  | .ok _ => writeServerMap st "mcpServers" servers

def claudeDesktopListInstalled (ctx : PathCtx) (scope : Scope) (st : FS) :
    Except AdapterError (List (String × NormalizedServer)) := do
  let servers ← claudeDesktopReadConfig ctx scope st
  pure ((jEntries servers).map
    (fun p => (p.1, entryOrPlaceholder desktopConfigToNormalized p.1 p.2)))

/-- Model of `claudeDesktopAdapter.addServer` (lines 147-170): a non-stdio server is
skipped with a console warning BEFORE any scope check, returning successfully
without touching the file; a stdio server goes through read, name computation,
transform and write. -/
def claudeDesktopAddServer (ctx : PathCtx) (scope : Scope) (st : FS)
    (server : NormalizedServer) : Except AdapterError FS :=
  match normalizedToDesktopConfig server with
  | none => .ok st
  | some cfg => do
      let servers ← claudeDesktopReadConfig ctx scope st
      let out ← claudeDesktopWriteConfig ctx scope st
        (jSpreadInsert servers (serverNameOf server.id) cfg)
      pure (.doc out)

def claudeDesktopRemoveServer (ctx : PathCtx) (scope : Scope) (st : FS) (serverKey : String) :
    Except AdapterError FS := do
  let servers ← claudeDesktopReadConfig ctx scope st
  let out ← claudeDesktopWriteConfig ctx scope st (jSpreadDelete servers serverKey)
  pure (.doc out)

-- ---------- Codex (src/agents/codex.ts) ----------

/-- Model of `authHeader.startsWith('Bearer ')`, modelled at the character-list level. -/
def strStartsWith (s pre : String) : Bool := pre.toList.isPrefixOf s.toList

/-- The http/sse branch of `normalizedToCodexConfig` (lines 47-68): a truthy
`Authorization` header is summarized as an `auth` table referencing the
`MCP_TOKEN` env var (`bearer` for a `Bearer `-prefixed value, `custom`
otherwise); no literal token and no other header is ever written. -/
def codexRemoteConfig (u : String) (h : Option (List (String × String))) : J :=
  .obj ([("url", .str u)]
    ++ (match h with
        | none => []
        | some m =>
            match aget m "Authorization" with
            | none => []
            | some tok =>
                if tok = "" then []
                else if strStartsWith tok "Bearer " then
                  [("auth", .obj [("type", .str "bearer"), ("token_env", .str "MCP_TOKEN")] [])]
                else
                  [("auth", .obj [("type", .str "custom"), ("token_env", .str "MCP_TOKEN")] [])])) []

/-- Model of `normalizedToCodexConfig` (lines 35-71). -/
def normalizedToCodexConfig (server : NormalizedServer) : J :=
  match server.transport with
  | .stdio c a e w =>
      .obj ([("command", .str c), ("args", .arr (a.map .str))]
        ++ (match e with | some m => [("env", jOfStrMap m)] | none => [])
        ++ (match w with | some d => [("cwd", .str d)] | none => [])) []
  | .http u h => codexRemoteConfig u h
  | .sse u h => codexRemoteConfig u h

/-- Model of `config.auth?.token` reconstructed as an `Authorization: Bearer <token>`
header (lines 78-81); truthy only. -/
def codexAuthHeaders (config : J) : Option (List (String × String)) :=
  match jGet config "auth" with
  | some a =>
      (match jGet a "token" with
       | some (.str t) => if t = "" then none else some [("Authorization", "Bearer " ++ t)]
       | _ => none)
  | none => none

/-- The stdio branch of `codexConfigToNormalized` (lines 89-96). -/
def codexStdioNormalized (name : String) (config : J) : NormalizedServer :=
  ⟨name, name, none,
    .stdio (jStrOr (jGet config "command")) (jStrListOr (jGet config "args"))
      (jStrMapOr (jGet config "env")) (jStrOpt (jGet config "cwd")), []⟩

/-- Model of `codexConfigToNormalized` (lines 73-105): an entry with a truthy `url` is
http (there is no sse on the way back); everything else is stdio. -/
def codexConfigToNormalized (name : String) (config : J) : NormalizedServer :=
  match jGet config "url" with
  | some (.str u) =>
      if u = "" then codexStdioNormalized name config
      else ⟨name, name, none, .http u (codexAuthHeaders config), []⟩
  | some v =>
      if jTruthy v then ⟨name, name, none, .http (jStrOr (some v)) (codexAuthHeaders config), []⟩
      else codexStdioNormalized name config
  | none => codexStdioNormalized name config

def codexReadConfig (ctx : PathCtx) (scope : Scope) (st : FS) : Except AdapterError J :=
  readServerMap (codexGetConfigPath ctx scope) st "mcp_servers"

def codexWriteConfig (st : FS) (servers : J) : Except AdapterError J :=
  writeServerMap st "mcp_servers" servers

def codexListInstalled (ctx : PathCtx) (scope : Scope) (st : FS) :
    Except AdapterError (List (String × NormalizedServer)) := do
  let servers ← codexReadConfig ctx scope st
  pure ((jEntries servers).map
    (fun p => (p.1, entryOrPlaceholder codexConfigToNormalized p.1 p.2)))

def codexAddServer (ctx : PathCtx) (scope : Scope) (st : FS) (server : NormalizedServer) :
    Except AdapterError FS := do
  let servers ← codexReadConfig ctx scope st
  let out ← codexWriteConfig st
    (jSpreadInsert servers (serverNameOf server.id) (normalizedToCodexConfig server))
  pure (.doc out)

def codexRemoveServer (ctx : PathCtx) (scope : Scope) (st : FS) (serverKey : String) :
    Except AdapterError FS := do
  let servers ← codexReadConfig ctx scope st
  let out ← codexWriteConfig st (jSpreadDelete servers serverKey)
  pure (.doc out)

-- ---------- OpenCode (src/agents/claude-desktop.ts, second half) ----------

/-- The http/sse branch of `normalizedToOpencodeConfig` (lines 227-240). -/
def opencodeRemoteConfig (u : String) (h : Option (List (String × String))) : J :=
  .obj ([("type", .str "remote"), ("url", .str u), ("enabled", .bool true)]
    ++ (match h with | some m => [("headers", jOfStrMap m)] | none => [])) []

/-- Model of `normalizedToOpencodeConfig` (lines 214-241): stdio becomes a `'local'`
entry whose `command` array is `[command, ...args]`; http and sse both become
`'remote'`. -/
def normalizedToOpencodeConfig (server : NormalizedServer) : J :=
  match server.transport with
  | .stdio c a e _ =>
      .obj ([("type", .str "local"), ("command", .arr ((c :: a).map .str)),
             ("enabled", .bool true)]
        ++ (match e with | some m => [("environment", jOfStrMap m)] | none => [])) []
  | .http u h => opencodeRemoteConfig u h
  | .sse u h => opencodeRemoteConfig u h

/-- Model of `config.command?.[0] || ''`. -/
def opencodeCommandHead (v : Option J) : String :=
  match v with
  | some (.arr (x :: _)) => jStrOr (some x)
  | _ => ""

/-- Model of `config.command?.slice(1) || []`. -/
def opencodeCommandTail (v : Option J) : List String :=
  match v with
  | some (.arr (_ :: xs)) => xs.map (fun x => jStrOr (some x))
  | _ => []

/-- Model of `opencodeConfigToNormalized` (lines 243-271): a `'local'` entry becomes
stdio; every other entry — `'remote'` or anything else — becomes an http
transport (the sse distinction is not reconstructed). -/
def opencodeConfigToNormalized (name : String) (config : J) : NormalizedServer :=
  match jGet config "type" with
  | some (.str "local") =>
      ⟨name, name, none,
        .stdio (opencodeCommandHead (jGet config "command"))
          (opencodeCommandTail (jGet config "command"))
          (jStrMapOr (jGet config "environment")) none, []⟩
  | _ =>
      ⟨name, name, none,
        .http (jStrOr (jGet config "url")) (jStrMapOr (jGet config "headers")), []⟩

/-- Model of `opencodeAdapter.readConfig` (lines 296-315): like the JSON adapters but
through comment-json and with the server map at `mcp.servers`
(`parsed.mcp?.servers || {}`). -/
def opencodeReadConfig (ctx : PathCtx) (scope : Scope) (st : FS) : Except AdapterError J :=
  match st with
  | .absent => .ok jEmptyObj
  | .corrupt => .error (.invalidConfig (opencodeGetConfigPath ctx scope))
  | .doc .null => .error .typeErr
  | .doc j =>
      .ok (match jGet j "mcp" with
        | some m =>
            (match jGet m "servers" with
             | some v => if jFalsy v then jEmptyObj else v
             | none => jEmptyObj)
        | none => jEmptyObj)

/-- Model of `opencodeAdapter.writeConfig` (lines 317-342): re-read (absence or
corruption starts from `{}`), `if (!config.mcp) config.mcp = {}` (a falsy
`mcp` is replaced), then `config.mcp.servers = servers`, and re-serialize with
comment-json, which re-emits the comment tokens attached to the surviving
object nodes.  Assigning into a truthy primitive `mcp` (or a primitive
document) throws in strict mode; on an array the assigned property is not
emitted by the serializer, so that part of the file is rewritten unchanged. -/
def opencodeWriteConfig (st : FS) (servers : J) : Except AdapterError J :=
  match st with
  | .absent => .ok (.obj [("mcp", .obj [("servers", servers)] [])] [])
  | .corrupt => .ok (.obj [("mcp", .obj [("servers", servers)] [])] [])
  | .doc (.obj kvs cs) =>
      (match aget kvs "mcp" with
       | some (.obj ikvs ics) =>
           .ok (.obj (aset kvs "mcp" (.obj (aset ikvs "servers" servers) ics)) cs)
       | some (.arr xs) => .ok (.obj (aset kvs "mcp" (.arr xs)) cs)
       | some v =>
           if jFalsy v then .ok (.obj (aset kvs "mcp" (.obj [("servers", servers)] [])) cs)
           else .error .typeErr
       | none => .ok (.obj (aset kvs "mcp" (.obj [("servers", servers)] [])) cs))
  | .doc (.arr xs) => .ok (.arr xs)
  | .doc _ => .error .typeErr

def opencodeListInstalled (ctx : PathCtx) (scope : Scope) (st : FS) :
    Except AdapterError (List (String × NormalizedServer)) := do
  let servers ← opencodeReadConfig ctx scope st
  pure ((jEntries servers).map
    (fun p => (p.1, entryOrPlaceholder opencodeConfigToNormalized p.1 p.2)))

def opencodeAddServer (ctx : PathCtx) (scope : Scope) (st : FS) (server : NormalizedServer) :
    Except AdapterError FS := do
  let servers ← opencodeReadConfig ctx scope st
  let out ← opencodeWriteConfig st
    (jSpreadInsert servers (serverNameOf server.id) (normalizedToOpencodeConfig server))
  pure (.doc out)

def opencodeRemoveServer (ctx : PathCtx) (scope : Scope) (st : FS) (serverKey : String) :
    Except AdapterError FS := do
  let servers ← opencodeReadConfig ctx scope st
  let out ← opencodeWriteConfig st (jSpreadDelete servers serverKey)
  pure (.doc out)

-- ---------- Dispatch over the four adapters ----------

def readConfigOf (a : Agent) (ctx : PathCtx) (scope : Scope) (st : FS) : Except AdapterError J :=
  match a with
  | .claudeCode => claudeCodeReadConfig ctx scope st
  | .claudeDesktop => claudeDesktopReadConfig ctx scope st
  | .codex => codexReadConfig ctx scope st
  | .opencode => opencodeReadConfig ctx scope st

def writeConfigOf (a : Agent) (ctx : PathCtx) (scope : Scope) (st : FS) (servers : J) :
    Except AdapterError J :=
  match a with
  | .claudeCode => claudeCodeWriteConfig st servers
  | .claudeDesktop => claudeDesktopWriteConfig ctx scope st servers
  | .codex => codexWriteConfig st servers
  | .opencode => opencodeWriteConfig st servers

def addServerOf (a : Agent) (ctx : PathCtx) (scope : Scope) (st : FS)
    (server : NormalizedServer) : Except AdapterError FS :=
  match a with
  | .claudeCode => claudeCodeAddServer ctx scope st server
  | .claudeDesktop => claudeDesktopAddServer ctx scope st server
  | .codex => codexAddServer ctx scope st server
  | .opencode => opencodeAddServer ctx scope st server

def listInstalledOf (a : Agent) (ctx : PathCtx) (scope : Scope) (st : FS) :
    Except AdapterError (List (String × NormalizedServer)) :=
  match a with
  | .claudeCode => claudeCodeListInstalled ctx scope st
  | .claudeDesktop => claudeDesktopListInstalled ctx scope st
  | .codex => codexListInstalled ctx scope st
  | .opencode => opencodeListInstalled ctx scope st

def removeServerOf (a : Agent) (ctx : PathCtx) (scope : Scope) (st : FS) (serverKey : String) :
    Except AdapterError FS :=
  match a with
  | .claudeCode => claudeCodeRemoveServer ctx scope st serverKey
  | .claudeDesktop => claudeDesktopRemoveServer ctx scope st serverKey
  | .codex => codexRemoveServer ctx scope st serverKey
  | .opencode => opencodeRemoveServer ctx scope st serverKey

/-- A concrete path context used by witnesses and counterexamples. -/
def ctx0 : PathCtx :=
  ⟨"/home/u", "/work", "/home/u/.claude", "/home/u/.codex",
   "/home/u/.config/opencode", .linux, false⟩

-- ---------- Comments and frame lemmas ----------

mutual
/-- All comment tokens in a document tree. -/
def jComments : J → List String
  | .null => []
  | .bool _ => []
  | .num _ => []
  | .str _ => []
  | .arr xs => jCommentsList xs
  | .obj kvs cs => cs ++ jCommentsEntries kvs
def jCommentsList : List J → List String
  | [] => []
  | x :: xs => jComments x ++ jCommentsList xs
def jCommentsEntries : List (String × J) → List String
  | [] => []
  | p :: t => jComments p.2 ++ jCommentsEntries t
end

/-- The value of the `mcp` entry with its `servers` sub-entry removed. -/
def stripServersVal : J → J
  | .obj ikvs ics => .obj (adel ikvs "servers") ics
  | v => v

def stripMcpEntries (kvs : List (String × J)) : List (String × J) :=
  kvs.map (fun p => if p.1 = "mcp" then (p.1, stripServersVal p.2) else p)

/-- The pre-existing document without the adapter-owned `mcp.servers` subtree:
comments located here are the ones the claim's amendment says survive. -/
def fsStripMcpServers : FS → J
  | .doc (.obj kvs cs) => .obj (stripMcpEntries kvs) cs
  | .doc j => j
  | _ => jEmptyObj

/-- Top-level key of a config file state. -/
def fsTopGet : FS → String → Option J
  | .doc j, k => jGet j k
  | _, _ => none

def jGet2 (j : J) (k1 k2 : String) : Option J :=
  match jGet j k1 with
  | some m => jGet m k2
  | none => none

def fsGet2 : FS → String → String → Option J
  | .doc j, k1, k2 => jGet2 j k1 k2
  | _, _, _ => none

/-- A pre-existing OpenCode config document with unrelated content. -/
def c1PreDoc : J :=
  .obj [("theme", .str "dark"),
        ("mcp", .obj [("keep", .num 1), ("servers", .obj [] [])] ["mcp note"])] ["top note"]

/-- The document after writing a server map into `c1PreDoc`. -/
def c1OutDoc : J :=
  .obj [("theme", .str "dark"),
        ("mcp", .obj [("keep", .num 1), ("servers", .obj [("echo", .str "e")] [])] ["mcp note"])]
    ["top note"]

/-- A JSONC document with a comment attached inside the `mcp.servers` subtree. -/
def c1CommentDoc : J :=
  .obj [("mcp", .obj [("servers", .obj [("a", .num 1)] ["keep me"])] [])] []

/-- The Claude-Code project file produced by installing the echo server into
an absent config. -/
def c7OutDoc : J :=
  .obj [("mcpServers",
    .obj [("echo", .obj [("type", .str "stdio"), ("command", .str "node"),
      ("args", .arr [.str "echo.js"])] [])] [])] []

/-- The `mcp` slot of an OpenCode document admits a server-map write without a
strict-mode throw and without the entry being dropped: absent, falsy, or an
object. -/
def mcpSlotOk (kvs : List (String × J)) : Bool :=
  match aget kvs "mcp" with
  | none => true
  | some (.obj _ _) => true
  | some v => jFalsy v

/-- States from which an adapter's read-merge-write cycle both reads and
places the server map: an absent file, or a file parsing to a JSON object
(whose `mcp` slot is writable, for OpenCode). -/
def roundTripState : Agent → FS → Bool
  | _, .absent => true
  | .opencode, .doc (.obj kvs _) => mcpSlotOk kvs
  | _, .doc (.obj _ _) => true
  | _, _ => false

/-- The codex config file produced by installing an http server whose
`Authorization` header is summarized as an `auth` table. -/
def c2CodexOutDoc : J :=
  .obj [("mcp_servers",
    .obj [("a", .obj [("url", .str "https://x"),
      ("auth", .obj [("type", .str "bearer"), ("token_env", .str "MCP_TOKEN")] [])] [])] [])] []

-- ===================== Theorems =====================
theorem aget_aset_self {α : Type} (l : List (String × α)) (k : String) (v : α) :
    aget (aset l k v) k = some v := by
  induction l with
  | nil => simp [aget, aset]
  | cons hd t ih =>
    by_cases h : hd.1 = k
    · simp [aset, aget, h]
    · simp [aset, aget, h, ih]

theorem aget_aset_ne {α : Type} (l : List (String × α)) (k k' : String) (v : α)
    (h : k' ≠ k) : aget (aset l k v) k' = aget l k' := by
  induction l with
  | nil => simp [aget, aset, Ne.symm h]
  | cons hd t ih =>
    by_cases hk : hd.1 = k
    · subst hk
      simp [aset, aget, Ne.symm h]
    · simp only [aset, if_neg hk]
      by_cases hk' : hd.1 = k'
      · simp [aget, hk']
      · simp [aget, hk', ih]

theorem jStrListOr_of_strings (a : List String) :
    jStrListOr (some (.arr (a.map .str))) = a := by
  induction a with
  | nil => simp [jStrListOr]
  | cons x t ih =>
    simp only [jStrListOr, List.map_cons, List.map_map] at *
    simp [jStrOr]
    simpa [jStrListOr] using ih

theorem jStrMapOr_jOfStrMap (m : List (String × String)) :
    jStrMapOr (some (jOfStrMap m)) = some m := by
  simp only [jStrMapOr, jOfStrMap]
  induction m with
  | nil => simp
  | cons p t ih =>
    simp only [List.map_cons, List.cons.injEq] at *
    simp_all [jStrOr]

theorem insertSorted_comm (x y : String) (l : List String) :
    insertSorted x (insertSorted y l) = insertSorted y (insertSorted x l) := by
  induction l with
  | nil =>
    simp only [insertSorted]
    by_cases hxy : x ≤ y
    · by_cases hyx : y ≤ x
      · have : x = y := le_antisymm hxy hyx
        subst this; rfl
      · simp [insertSorted, hxy, hyx]
    · have hyx : y ≤ x := le_of_not_le hxy
      simp [insertSorted, hxy, hyx]
  | cons z t ih =>
    simp only [insertSorted]
    by_cases hyz : y ≤ z
    · by_cases hxz : x ≤ z
      · by_cases hxy : x ≤ y
        · by_cases hyx : y ≤ x
          · have : x = y := le_antisymm hxy hyx
            subst this; rfl
          · simp [insertSorted, hxy, hyx, hxz, hyz]
        · have hyx : y ≤ x := le_of_not_le hxy
          simp [insertSorted, hxy, hyx, hxz, hyz]
      · have hxy : y ≤ x := le_trans hyz (le_of_not_le hxz)
        by_cases hxy' : x ≤ y
        · have : x = y := le_antisymm hxy' hxy
          subst this
          simp [insertSorted, hxz, hyz] at *
        · simp [insertSorted, hxz, hyz, hxy', hxy]
    · by_cases hxz : x ≤ z
      · have hyx : ¬ y ≤ x := fun h => hyz (le_trans h hxz)
        have hxy : x ≤ y := le_of_not_le hyx
        simp [insertSorted, hxz, hyz, hxy, hyx]
      · simp [insertSorted, hxz, hyz, ih]

theorem sortStrings_perm_invariant {l₁ l₂ : List String} (h : l₁.Perm l₂) :
    sortStrings l₁ = sortStrings l₂ := by
  induction h with
  | nil => rfl
  | cons x _ ih => simp [sortStrings, ih]
  | swap x y l => simp [sortStrings, insertSorted_comm]
  | trans _ _ ih₁ ih₂ => exact ih₁.trans ih₂

theorem length_hexNibbles (k w : Nat) : (hexNibbles k w).length = k := by
  induction k generalizing w with
  | zero => rfl
  | succ n ih => simp [hexNibbles, ih]

theorem mem_hexNibbles {c : Char} {k w : Nat} (h : c ∈ hexNibbles k w) : c ∈ hexCharList := by
  induction k generalizing w with
  | zero => simp [hexNibbles] at h
  | succ n ih =>
    simp only [hexNibbles, List.mem_cons] at h
    rcases h with h | h
    · subst h
      have hlt : (w >>> (4 * n)) % 16 < hexCharList.length := by
        have : (w >>> (4 * n)) % 16 < 16 := Nat.mod_lt _ (by norm_num)
        simpa [hexCharList] using this
      rw [hexDigit, List.getD_eq_getElem?_getD, List.getElem?_eq_getElem hlt]
      simp only [Option.getD_some]
      exact List.getElem_mem hlt
    · exact ih h

theorem readLockFile_version_ge (d : LockDisk) : 1 ≤ (readLockFile d).version := by
  cases d with
  | corrupt => simp [readLockFile, CURRENT_LOCK_VERSION]
  | doc v s =>
    cases v with
    | none => simp [readLockFile, CURRENT_LOCK_VERSION]
    | some v =>
      cases s with
      | none => simp [readLockFile, CURRENT_LOCK_VERSION]
      | some s =>
        simp only [readLockFile, CURRENT_LOCK_VERSION]
        by_cases h : v < 1 <;> simp [h] <;> omega

theorem strOrElse_ne {v : Option String} {d : String} (h : d ≠ "") : strOrElse v d ≠ "" := by
  cases v with
  | none => simpa [strOrElse] using h
  | some s =>
    by_cases hs : s = "" <;> simp [strOrElse, hs, h]

theorem readLockFile_writeLockFile (lf : LockFile) (h : 1 ≤ lf.version) :
    readLockFile (writeLockFile lf) = lf := by
  simp only [writeLockFile, readLockFile, CURRENT_LOCK_VERSION]
  rw [if_neg (by omega)]

/-- C4: calling `addLockEntry` twice for the same id (from any starting disk
state, with any nonempty first timestamp) keeps the `installedAt` recorded by
the first call, sets `updatedAt` to the second call's timestamp, and replaces
`targets` with exactly the second call's argument. -/
theorem c4_lock_upsert (d : LockDisk) (serverId : String) (src₁ src₂ : SourceInfo)
    (srv₁ srv₂ : NormalizedServer) (t₁ t₂ : List LockTarget) (now₁ now₂ : String)
    (h₁ : now₁ ≠ "") :
    ∃ e₁ e₂ : LockEntry,
      aget (readLockFile (addLockEntry d serverId src₁ srv₁ t₁ now₁)).servers serverId = some e₁
      ∧ aget (readLockFile (addLockEntry (addLockEntry d serverId src₁ srv₁ t₁ now₁)
            serverId src₂ srv₂ t₂ now₂)).servers serverId = some e₂
      ∧ e₂.installedAt = e₁.installedAt ∧ e₂.updatedAt = now₂ ∧ e₂.targets = t₂ := by
  have hv₁ : 1 ≤ (readLockFile d).version := readLockFile_version_ge d
  simp only [addLockEntry]
  rw [readLockFile_writeLockFile _ (by simpa using hv₁)]
  simp only [aget_aset_self, Option.map_some]
  rw [readLockFile_writeLockFile _ (by simpa using hv₁)]
  simp only [aget_aset_self]
  refine ⟨_, _, rfl, rfl, ?_, rfl, rfl⟩
  have hne : strOrElse ((aget (readLockFile d).servers serverId).map LockEntry.installedAt) now₁ ≠ "" :=
    strOrElse_ne h₁
  revert hne
  generalize strOrElse ((aget (readLockFile d).servers serverId).map LockEntry.installedAt) now₁ = s
  intro hne
  simp [strOrElse, hne]

/-- Witness for C4 at a concrete input. -/
theorem c4_lock_upsert_witness :
    (("2024-01-01T00:00:00Z" : String) ≠ "")
    ∧ (∃ e₁ e₂ : LockEntry,
        aget (readLockFile (addLockEntry .corrupt "io.github.acme/echo" ⟨.registry, "https://reg", none⟩
            ⟨"io.github.acme/echo", "echo", none, .stdio "node" ["echo.js"] none none, []⟩
            [⟨"claude-code", .project, "echo"⟩] "2024-01-01T00:00:00Z")).servers "io.github.acme/echo" = some e₁
        ∧ aget (readLockFile (addLockEntry (addLockEntry .corrupt "io.github.acme/echo" ⟨.registry, "https://reg", none⟩
              ⟨"io.github.acme/echo", "echo", none, .stdio "node" ["echo.js"] none none, []⟩
              [⟨"claude-code", .project, "echo"⟩] "2024-01-01T00:00:00Z")
            "io.github.acme/echo" ⟨.git, "https://git", none⟩
            ⟨"io.github.acme/echo", "echo", none, .stdio "node" ["echo.js"] none none, []⟩
            [⟨"codex", .user, "echo"⟩] "2024-02-02T00:00:00Z")).servers "io.github.acme/echo" = some e₂
        ∧ e₂.installedAt = e₁.installedAt ∧ e₂.updatedAt = "2024-02-02T00:00:00Z"
        ∧ e₂.targets = [⟨"codex", .user, "echo"⟩]) :=
  ⟨by decide, c4_lock_upsert .corrupt "io.github.acme/echo" ⟨.registry, "https://reg", none⟩ ⟨.git, "https://git", none⟩
      ⟨"io.github.acme/echo", "echo", none, .stdio "node" ["echo.js"] none none, []⟩
      ⟨"io.github.acme/echo", "echo", none, .stdio "node" ["echo.js"] none none, []⟩
      [⟨"claude-code", .project, "echo"⟩] [⟨"codex", .user, "echo"⟩]
      "2024-01-01T00:00:00Z" "2024-02-02T00:00:00Z" (by decide)⟩

/-- C5 counterexample: a lock file whose version (0) differs from the current
version (1) is NOT degraded to an empty lock file — `readLockFile` migrates it
and keeps its servers. -/
theorem c5_version_mismatch_cex :
    readLockFile (.doc (some 0) (some [("srv", lockEntry0)])) = ⟨1, [("srv", lockEntry0)]⟩
    ∧ ([("srv", lockEntry0)] : List (String × LockEntry)) ≠ [] := by
  constructor
  · rfl
  · simp

/-- C5 (amended): a corrupt lock file (unparseable, or `version` missing or not
a number, or `servers` missing/falsy) degrades to the empty lock file; a
parseable file whose version is older than the current one is migrated with its
servers preserved; a file at the current or a newer version is returned as
parsed — never a failure. -/
theorem c5_readLockFile_degradation :
    readLockFile .corrupt = ⟨CURRENT_LOCK_VERSION, []⟩
    ∧ (∀ s, readLockFile (.doc none s) = ⟨CURRENT_LOCK_VERSION, []⟩)
    ∧ (∀ v, readLockFile (.doc (some v) none) = ⟨CURRENT_LOCK_VERSION, []⟩)
    ∧ (∀ v s, v < CURRENT_LOCK_VERSION →
        readLockFile (.doc (some v) (some s)) = ⟨CURRENT_LOCK_VERSION, s⟩)
    ∧ (∀ v s, CURRENT_LOCK_VERSION ≤ v →
        readLockFile (.doc (some v) (some s)) = ⟨v, s⟩) := by
  refine ⟨rfl, fun s => rfl, fun v => rfl, fun v s h => ?_, fun v s h => ?_⟩
  · simp [readLockFile, h]
  · simp only [readLockFile]
    rw [if_neg (by omega)]

/-- Witness for C5's amended statement at concrete inputs. -/
theorem c5_readLockFile_degradation_witness :
    readLockFile (.doc (some 0) (some [("srv", lockEntry0)])) = ⟨CURRENT_LOCK_VERSION, [("srv", lockEntry0)]⟩
    ∧ readLockFile (.doc (some 5) (some [("srv", lockEntry0)])) = ⟨5, [("srv", lockEntry0)]⟩ :=
  ⟨c5_readLockFile_degradation.2.2.2.1 0 [("srv", lockEntry0)] (by decide),
   c5_readLockFile_degradation.2.2.2.2 5 [("srv", lockEntry0)] (by decide)⟩

/-- C9: `generateMetadataHash` is a pure function (deterministic by
construction), its result is a 16-character string of lowercase hex digits,
and two servers with the same id, the same transport and the same secret
names up to order always hash identically. -/
theorem c9_hash_stability (s₁ s₂ : NormalizedServer) :
    (generateMetadataHash s₁).length = 16
    ∧ (∀ c ∈ (generateMetadataHash s₁).toList, c ∈ hexCharList)
    ∧ (s₁.id = s₂.id → s₁.transport = s₂.transport →
        (s₁.secrets.map SecretField.name).Perm (s₂.secrets.map SecretField.name) →
        generateMetadataHash s₁ = generateMetadataHash s₂) := by
  refine ⟨?_, ?_, ?_⟩
  · show ((hexOfH8 (sha256Of (metadataJson s₁))).take 16).length = 16
    rw [List.length_take]
    simp [hexOfH8, length_hexNibbles]
  · intro c hc
    have hc' : c ∈ hexOfH8 (sha256Of (metadataJson s₁)) :=
      List.take_subset 16 _ hc
    simp only [hexOfH8, List.mem_append] at hc'
    rcases hc' with ((((((h | h) | h) | h) | h) | h) | h) | h <;> exact mem_hexNibbles h
  · intro hid htr hperm
    have hm : metadataJson s₁ = metadataJson s₂ := by
      simp only [metadataJson, hid, htr, sortStrings_perm_invariant hperm]
    simp [generateMetadataHash, hm]

/-- Witness for C9: two concrete servers whose secret lists differ only in
order hash identically, and the hash has length 16. -/
theorem c9_hash_stability_witness :
    (generateMetadataHash
        ⟨"io.github.acme/echo", "echo", none, .http "https://x" none,
         [⟨"TOKEN_B", none, true⟩, ⟨"TOKEN_A", some "key", false⟩]⟩).length = 16
    ∧ generateMetadataHash
        ⟨"io.github.acme/echo", "echo", none, .http "https://x" none,
         [⟨"TOKEN_B", none, true⟩, ⟨"TOKEN_A", some "key", false⟩]⟩
      = generateMetadataHash
        ⟨"io.github.acme/echo", "echo", some "d", .http "https://x" none,
         [⟨"TOKEN_A", none, true⟩, ⟨"TOKEN_B", none, true⟩]⟩ :=
  ⟨(c9_hash_stability
      ⟨"io.github.acme/echo", "echo", none, .http "https://x" none,
       [⟨"TOKEN_B", none, true⟩, ⟨"TOKEN_A", some "key", false⟩]⟩
      ⟨"io.github.acme/echo", "echo", some "d", .http "https://x" none,
       [⟨"TOKEN_A", none, true⟩, ⟨"TOKEN_B", none, true⟩]⟩).1,
   (c9_hash_stability
      ⟨"io.github.acme/echo", "echo", none, .http "https://x" none,
       [⟨"TOKEN_B", none, true⟩, ⟨"TOKEN_A", some "key", false⟩]⟩
      ⟨"io.github.acme/echo", "echo", some "d", .http "https://x" none,
       [⟨"TOKEN_A", none, true⟩, ⟨"TOKEN_B", none, true⟩]⟩).2.2 rfl rfl (by decide)⟩

theorem validate_eq_not_rejected (v : J) : validateServerJson v = !manifestRejected v := by
  cases v with
  | null => rfl
  | bool b => rfl
  | num n => rfl
  | str s => rfl
  | arr xs => rfl
  | obj kvs cs =>
    simp only [validateServerJson, manifestRejected, fieldMissingOrEmptyStr, transportUnknown,
      transportIs, argsPresentNotArray, jIsObjectTyped, jGet, Bool.true_and]
    cases hname : aget kvs "name" with
    | none => simp
    | some nv =>
      cases nv with
      | null => simp
      | bool b => simp
      | num n => simp
      | arr l => simp
      | obj okvs ocs => simp
      | str ns =>
        by_cases hns : ns = ""
        · simp [bne, hns]
        · cases htr : aget kvs "transport" with
          | none => simp [bne, hns]
          | some tv =>
            cases tv with
            | null => simp [bne, hns]
            | bool b => simp [bne, hns]
            | num n => simp [bne, hns]
            | arr l => simp [bne, hns]
            | obj okvs ocs => simp [bne, hns]
            | str ts =>
              by_cases h1 : ts = "stdio"
              · subst h1
                cases hc : aget kvs "command" with
                | none => simp [bne, hns]
                | some cv =>
                  cases cv with
                  | null => simp [bne, hns]
                  | bool b => simp [bne, hns]
                  | num n => simp [bne, hns]
                  | arr l => simp [bne, hns]
                  | obj okvs ocs => simp [bne, hns]
                  | str c =>
                    by_cases hcc : c = ""
                    · simp [bne, hns, hcc]
                    · cases ha : aget kvs "args" with
                      | none => simp [bne, hns, hcc]
                      | some av => cases av <;> simp [bne, hns, hcc]
              · by_cases h2 : ts = "http"
                · subst h2
                  cases hu : aget kvs "url" with
                  | none => simp [bne, hns, h1]
                  | some uv =>
                    cases uv with
                    | null => simp [bne, hns, h1]
                    | bool b => simp [bne, hns, h1]
                    | num n => simp [bne, hns, h1]
                    | arr l => simp [bne, hns, h1]
                    | obj okvs ocs => simp [bne, hns, h1]
                    | str u => by_cases huu : u = "" <;> simp [bne, hns, h1, huu]
                · by_cases h3 : ts = "sse"
                  · subst h3
                    cases hu : aget kvs "url" with
                    | none => simp [bne, hns, h1, h2]
                    | some uv =>
                      cases uv with
                      | null => simp [bne, hns, h1, h2]
                      | bool b => simp [bne, hns, h1, h2]
                      | num n => simp [bne, hns, h1, h2]
                      | arr l => simp [bne, hns, h1, h2]
                      | obj okvs ocs => simp [bne, hns, h1, h2]
                      | str u => by_cases huu : u = "" <;> simp [bne, hns, h1, h2, huu]
                  · have b1 : (ts == "stdio") = false := by simp [h1]
                    have b2 : (ts == "http") = false := by simp [h2]
                    have b3 : (ts == "sse") = false := by simp [h3]
                    simp [bne, hns, b1, b2, b3]

theorem normalize_fields {v : J} {s : NormalizedServer} (h : normalizeServerJson v = some s) :
    s.id = jStrOr (jGet v "name") ∧ s.displayName = jStrOr (jGet v "name")
    ∧ (jGet v "transport" = some (.str "stdio") →
        s.transport = .stdio (jStrOr (jGet v "command")) (jStrListOr (jGet v "args"))
          (jStrMapOr (jGet v "env")) (jStrOpt (jGet v "cwd")))
    ∧ (∀ xs, jGet v "secrets" = some (.arr xs) → s.secrets = xs.map secretOfJson) := by
  simp only [normalizeServerJson] at h
  split at h
  case h_1 t sl heq₁ heq₂ =>
    cases h
    refine ⟨rfl, rfl, ?_, ?_⟩
    · intro hT
      rw [hT] at heq₁
      simpa using heq₁.symm
    · intro xs hS
      rw [hS] at heq₂
      simpa using heq₂.symm
  case h_2 => cases h

theorem parse_ok_normalize {v : J} {s : NormalizedServer}
    (h : parseServerJson (some v) = .ok s) : normalizeServerJson v = some s := by
  simp only [parseServerJson] at h
  by_cases hv : validateServerJson v
  · rw [if_pos hv] at h
    cases hn : normalizeServerJson v with
    | none => rw [hn] at h; cases h
    | some s' => rw [hn] at h; cases h; rfl
  · rw [if_neg hv] at h; cases h

/-- C6 (amended): `parseServerJson` fails with a ValidationError exactly when
the input is ill-formed JSON, or `name` is missing/empty, or `transport` is
not one of stdio/http/sse, or (stdio) `command` is missing/empty or `args` is
present but not an array, or (http/sse) `url` is missing/empty; on success the
result's `id` and `displayName` both equal the manifest's `name`, `args`
defaults to the empty sequence when omitted, and a secret's `required`
defaults to `true` when omitted. -/
theorem c6_parse_server_json :
    (∀ input : Option J,
      (∃ msg, parseServerJson input = .error (.validationError msg))
        ↔ amendedInvalid input = true)
    ∧ (∀ (v : J) (s : NormalizedServer), parseServerJson (some v) = .ok s →
        s.id = jStrOr (jGet v "name")
        ∧ s.displayName = jStrOr (jGet v "name")
        ∧ (jGet v "transport" = some (.str "stdio") → jGet v "args" = none →
            transportArgs s.transport = some [])
        ∧ (∀ xs, jGet v "secrets" = some (.arr xs) → s.secrets = xs.map secretOfJson))
    ∧ (∀ e : J, jGet e "required" = none → (secretOfJson e).required = true) := by
  refine ⟨?_, ?_, ?_⟩
  · intro input
    cases input with
    | none =>
      constructor
      · intro _; rfl
      · intro _; exact ⟨"Invalid JSON", rfl⟩
    | some v =>
      have hb := validate_eq_not_rejected v
      by_cases hv : validateServerJson v = true
      · have hr : manifestRejected v = false := by
          rw [hv] at hb
          cases hmr : manifestRejected v
          · rfl
          · rw [hmr] at hb; cases hb
        constructor
        · rintro ⟨msg, hmsg⟩
          simp only [parseServerJson, if_pos hv] at hmsg
          cases hn : normalizeServerJson v with
          | none => rw [hn] at hmsg; cases hmsg
          | some s' => rw [hn] at hmsg; cases hmsg
        · intro hcontra
          simp only [amendedInvalid, hr] at hcontra
          cases hcontra
      · have hr : manifestRejected v = true := by
          cases hmr : manifestRejected v
          · rw [hmr] at hb; simp at hb; exact absurd hb hv
          · rfl
        constructor
        · intro _; simpa [amendedInvalid] using hr
        · intro _
          refine ⟨"Invalid server.json manifest", ?_⟩
          simp only [parseServerJson, if_neg hv]
  · intro v s h
    obtain ⟨h₁, h₂, h₃, h₄⟩ := normalize_fields (parse_ok_normalize h)
    refine ⟨h₁, h₂, ?_, h₄⟩
    intro hT hA
    rw [h₃ hT, hA]
    rfl
  · intro e he
    simp [secretOfJson, secretRequired, he]

/-- Witness for C6 at concrete inputs: a valid stdio manifest with `args` and
`secrets[].required` omitted parses with the documented defaults, and an
ill-formed input fails with a ValidationError. -/
theorem c6_parse_server_json_witness :
    (∃ msg, parseServerJson (some (.num 5)) = .error (.validationError msg))
    ∧ (∀ s : NormalizedServer, parseServerJson (some sampleManifest) = .ok s →
        s.id = "io.github.acme/echo" ∧ transportArgs s.transport = some []
        ∧ s.secrets = [⟨"API_KEY", none, true⟩]) :=
  ⟨(c6_parse_server_json.1 (some (.num 5))).mpr rfl,
   fun s h =>
     ⟨(c6_parse_server_json.2.1 sampleManifest s h).1,
      (c6_parse_server_json.2.1 sampleManifest s h).2.2.1 rfl rfl,
      (c6_parse_server_json.2.1 sampleManifest s h).2.2.2 _ rfl⟩⟩

/-- C6 counterexample: the code rejects a manifest whose `args` is present but
not an array, although none of the claim's listed failure conditions holds. -/
theorem c6_args_check_cex :
    parseServerJson (some manifestArgsNum) = .error (.validationError "Invalid server.json manifest")
    ∧ claimedRejected manifestArgsNum = false := by
  constructor
  · rfl
  · rfl

theorem comments_entries_adel_subset (l : List (String × J)) (k : String) :
    ∀ c, c ∈ jCommentsEntries (adel l k) → c ∈ jCommentsEntries l := by
  induction l with
  | nil => intro c hc; simpa [adel, jCommentsEntries] using hc
  | cons p t ih =>
    intro c hc
    rcases p with ⟨pk, pv⟩
    by_cases hp : pk = k
    · simp only [adel, if_pos hp] at hc
      simp only [jCommentsEntries, List.mem_append]
      exact Or.inr (ih c hc)
    · simp only [adel, if_neg hp, jCommentsEntries, List.mem_append] at hc ⊢
      rcases hc with hc | hc
      · exact Or.inl hc
      · exact Or.inr (ih c hc)

theorem comments_stripVal_subset (v : J) :
    ∀ c, c ∈ jComments (stripServersVal v) → c ∈ jComments v := by
  cases v with
  | obj ikvs ics =>
    intro c hc
    simp only [stripServersVal, jComments, List.mem_append] at hc ⊢
    rcases hc with hc | hc
    · exact Or.inl hc
    · exact Or.inr (comments_entries_adel_subset ikvs "servers" c hc)
  | null => intro c hc; exact hc
  | bool b => intro c hc; exact hc
  | num n => intro c hc; exact hc
  | str s => intro c hc; exact hc
  | arr xs => intro c hc; exact hc

theorem comments_strip_entries_subset (l : List (String × J)) :
    ∀ c, c ∈ jCommentsEntries (stripMcpEntries l) → c ∈ jCommentsEntries l := by
  induction l with
  | nil => intro c hc; simpa [stripMcpEntries, jCommentsEntries] using hc
  | cons p t ih =>
    intro c hc
    by_cases hp : p.1 = "mcp"
    · simp only [stripMcpEntries, List.map_cons, if_pos hp, jCommentsEntries,
        List.mem_append] at hc
      simp only [jCommentsEntries, List.mem_append]
      rcases hc with hc | hc
      · exact Or.inl (comments_stripVal_subset p.2 c hc)
      · exact Or.inr (ih c (by simpa [stripMcpEntries] using hc))
    · simp only [stripMcpEntries, List.map_cons, if_neg hp, jCommentsEntries,
        List.mem_append] at hc
      simp only [jCommentsEntries, List.mem_append]
      rcases hc with hc | hc
      · exact Or.inl hc
      · exact Or.inr (ih c (by simpa [stripMcpEntries] using hc))

theorem comments_adel_subset_aset (l : List (String × J)) (k : String) (v : J) :
    ∀ c, c ∈ jCommentsEntries (adel l k) → c ∈ jCommentsEntries (aset l k v) := by
  induction l with
  | nil => intro c hc; simpa [adel, jCommentsEntries] using hc
  | cons p t ih =>
    intro c hc
    rcases p with ⟨pk, pv⟩
    by_cases hp : pk = k
    · simp only [adel, if_pos hp] at hc
      simp only [aset, if_pos hp, jCommentsEntries, List.mem_append]
      exact Or.inr (comments_entries_adel_subset t k c hc)
    · simp only [adel, if_neg hp, jCommentsEntries, List.mem_append] at hc
      simp only [aset, if_neg hp, jCommentsEntries, List.mem_append]
      rcases hc with hc | hc
      · exact Or.inl hc
      · exact Or.inr (ih c hc)

theorem comments_stripMcp_subset_aset (kvs : List (String × J)) (M : J)
    (hfirst : ∀ old, aget kvs "mcp" = some old →
      ∀ c, c ∈ jComments (stripServersVal old) → c ∈ jComments M) :
    ∀ c, c ∈ jCommentsEntries (stripMcpEntries kvs) → c ∈ jCommentsEntries (aset kvs "mcp" M) := by
  induction kvs with
  | nil => intro c hc; simpa [stripMcpEntries, jCommentsEntries] using hc
  | cons p t ih =>
    intro c hc
    rcases p with ⟨pk, pv⟩
    by_cases hp : pk = "mcp"
    · subst hp
      simp only [stripMcpEntries, List.map_cons, if_pos rfl, jCommentsEntries,
        List.mem_append] at hc
      simp only [aset, if_pos rfl, jCommentsEntries, List.mem_append]
      rcases hc with hc | hc
      · exact Or.inl (hfirst pv (by simp [aget]) c hc)
      · exact Or.inr (comments_strip_entries_subset t c (by simpa [stripMcpEntries] using hc))
    · simp only [stripMcpEntries, List.map_cons, if_neg hp, jCommentsEntries,
        List.mem_append] at hc
      simp only [aset, if_neg hp, jCommentsEntries, List.mem_append]
      rcases hc with hc | hc
      · exact Or.inl hc
      · refine Or.inr (ih ?_ c (by simpa [stripMcpEntries] using hc))
        intro old hold
        exact hfirst old (by simpa [aget, hp] using hold)

theorem writeServerMap_preserves {st : FS} {key : String} {servers out : J} {k : String}
    (h : writeServerMap st key servers = .ok out) (hk : k ≠ key) :
    jGet out k = fsTopGet st k := by
  cases st with
  | absent =>
    simp only [writeServerMap, Except.ok.injEq] at h
    subst h
    simp [jGet, aget, fsTopGet, Ne.symm hk]
  | corrupt =>
    simp only [writeServerMap, Except.ok.injEq] at h
    subst h
    simp [jGet, aget, fsTopGet, Ne.symm hk]
  | doc j =>
    cases j with
    | obj kvs cs =>
      simp only [writeServerMap, Except.ok.injEq] at h
      subst h
      simp [jGet, fsTopGet, aget_aset_ne _ _ _ _ hk]
    | arr xs =>
      simp only [writeServerMap, Except.ok.injEq] at h
      subst h
      simp [jGet, fsTopGet]
    | null => cases h
    | bool b => cases h
    | num n => cases h
    | str s => cases h

/-- C1 (amended): for every adapter and every pre-existing file state,
`writeConfig` (the read-merge-write step that `addServer` and `removeServer`
call) keeps the value of every pre-existing top-level key other than the
adapter's own server-map key; for OpenCode it also keeps every entry of `mcp`
other than `servers`, and every comment token located outside the replaced
`mcp.servers` subtree is still present afterwards (comments attached inside
the replaced subtree travel with the servers argument, not with the file). -/
theorem c1_merge_preservation :
    (∀ (st : FS) (servers out : J) (k : String),
        claudeCodeWriteConfig st servers = .ok out → k ≠ "mcpServers" →
        jGet out k = fsTopGet st k)
    ∧ (∀ (ctx : PathCtx) (scope : Scope) (st : FS) (servers out : J) (k : String),
        claudeDesktopWriteConfig ctx scope st servers = .ok out → k ≠ "mcpServers" →
        jGet out k = fsTopGet st k)
    ∧ (∀ (st : FS) (servers out : J) (k : String),
        codexWriteConfig st servers = .ok out → k ≠ "mcp_servers" →
        jGet out k = fsTopGet st k)
    ∧ (∀ (st : FS) (servers out : J),
        opencodeWriteConfig st servers = .ok out →
        (∀ k, k ≠ "mcp" → jGet out k = fsTopGet st k)
        ∧ (∀ k, k ≠ "servers" → jGet2 out "mcp" k = fsGet2 st "mcp" k)
        ∧ (∀ c, c ∈ jComments (fsStripMcpServers st) → c ∈ jComments out)) := by
  refine ⟨?_, ?_, ?_, ?_⟩
  · intro st servers out k h hk
    exact writeServerMap_preserves h hk
  · intro ctx scope st servers out k h hk
    cases scope with
    | project => cases h
    | user =>
      simp only [claudeDesktopWriteConfig, claudeDesktopGetConfigPath] at h
      exact writeServerMap_preserves h hk
  · intro st servers out k h hk
    exact writeServerMap_preserves h hk
  · intro st servers out h
    cases st with
    | absent =>
      simp only [opencodeWriteConfig, Except.ok.injEq] at h
      subst h
      refine ⟨?_, ?_, ?_⟩
      · intro k hk
        simp [jGet, aget, fsTopGet, Ne.symm hk]
      · intro k hk
        simp [jGet2, jGet, aget, fsGet2, Ne.symm hk]
      · intro c hc
        simp [fsStripMcpServers, jEmptyObj, jComments, jCommentsEntries] at hc
    | corrupt =>
      simp only [opencodeWriteConfig, Except.ok.injEq] at h
      subst h
      refine ⟨?_, ?_, ?_⟩
      · intro k hk
        simp [jGet, aget, fsTopGet, Ne.symm hk]
      · intro k hk
        simp [jGet2, jGet, aget, fsGet2, Ne.symm hk]
      · intro c hc
        simp [fsStripMcpServers, jEmptyObj, jComments, jCommentsEntries] at hc
    | doc j =>
      cases j with
      | obj kvs cs =>
        simp only [opencodeWriteConfig] at h
        cases hmcp : aget kvs "mcp" with
        | none =>
          rw [hmcp] at h
          simp only [Except.ok.injEq] at h
          subst h
          refine ⟨?_, ?_, ?_⟩
          · intro k hk
            simp [jGet, fsTopGet, aget_aset_ne _ _ _ _ hk]
          · intro k hk
            simp [jGet2, jGet, fsGet2, aget_aset_self, hmcp, aget, Ne.symm hk]
          · intro c hc
            simp only [fsStripMcpServers, jComments, List.mem_append] at hc ⊢
            rcases hc with hc | hc
            · exact Or.inl hc
            · refine Or.inr (comments_stripMcp_subset_aset kvs _ ?_ c hc)
              intro old hold
              rw [hmcp] at hold
              cases hold
        | some mv =>
          rw [hmcp] at h
          cases mv with
          | obj ikvs ics =>
            simp only [Except.ok.injEq] at h
            subst h
            refine ⟨?_, ?_, ?_⟩
            · intro k hk
              simp [jGet, fsTopGet, aget_aset_ne _ _ _ _ hk]
            · intro k hk
              simp [jGet2, jGet, fsGet2, aget_aset_self, hmcp, aget_aset_ne _ _ _ _ hk]
            · intro c hc
              simp only [fsStripMcpServers, jComments, List.mem_append] at hc ⊢
              rcases hc with hc | hc
              · exact Or.inl hc
              · refine Or.inr (comments_stripMcp_subset_aset kvs _ ?_ c hc)
                intro old hold c' hc'
                rw [hmcp] at hold
                cases hold
                simp only [stripServersVal, jComments, List.mem_append] at hc' ⊢
                rcases hc' with hc' | hc'
                · exact Or.inl hc'
                · exact Or.inr (comments_adel_subset_aset ikvs "servers" servers c' hc')
          | arr xs =>
            simp only [Except.ok.injEq] at h
            subst h
            refine ⟨?_, ?_, ?_⟩
            · intro k hk
              simp [jGet, fsTopGet, aget_aset_ne _ _ _ _ hk]
            · intro k hk
              simp [jGet2, jGet, fsGet2, aget_aset_self, hmcp]
            · intro c hc
              simp only [fsStripMcpServers, jComments, List.mem_append] at hc ⊢
              rcases hc with hc | hc
              · exact Or.inl hc
              · refine Or.inr (comments_stripMcp_subset_aset kvs _ ?_ c hc)
                intro old hold c' hc'
                rw [hmcp] at hold
                cases hold
                simpa [stripServersVal] using hc'
          | null =>
            simp only [jFalsy, if_true, Except.ok.injEq] at h
            subst h
            refine ⟨?_, ?_, ?_⟩
            · intro k hk
              simp [jGet, fsTopGet, aget_aset_ne _ _ _ _ hk]
            · intro k hk
              simp [jGet2, jGet, fsGet2, aget_aset_self, hmcp, aget, Ne.symm hk]
            · intro c hc
              simp only [fsStripMcpServers, jComments, List.mem_append] at hc ⊢
              rcases hc with hc | hc
              · exact Or.inl hc
              · refine Or.inr (comments_stripMcp_subset_aset kvs _ ?_ c hc)
                intro old hold c' hc'
                rw [hmcp] at hold
                cases hold
                simp [stripServersVal, jComments] at hc'
          | bool b =>
            cases b with
            | true => simp [jFalsy] at h
            | false =>
              simp only [jFalsy, Bool.not_false, if_true, Except.ok.injEq] at h
              subst h
              refine ⟨?_, ?_, ?_⟩
              · intro k hk
                simp [jGet, fsTopGet, aget_aset_ne _ _ _ _ hk]
              · intro k hk
                simp [jGet2, jGet, fsGet2, aget_aset_self, hmcp, aget, Ne.symm hk]
              · intro c hc
                simp only [fsStripMcpServers, jComments, List.mem_append] at hc ⊢
                rcases hc with hc | hc
                · exact Or.inl hc
                · refine Or.inr (comments_stripMcp_subset_aset kvs _ ?_ c hc)
                  intro old hold c' hc'
                  rw [hmcp] at hold
                  cases hold
                  simp [stripServersVal, jComments] at hc'
          | num n =>
            by_cases hn : n = 0
            · subst hn
              simp only [jFalsy, beq_self_eq_true, if_true, Except.ok.injEq] at h
              subst h
              refine ⟨?_, ?_, ?_⟩
              · intro k hk
                simp [jGet, fsTopGet, aget_aset_ne _ _ _ _ hk]
              · intro k hk
                simp [jGet2, jGet, fsGet2, aget_aset_self, hmcp, aget, Ne.symm hk]
              · intro c hc
                simp only [fsStripMcpServers, jComments, List.mem_append] at hc ⊢
                rcases hc with hc | hc
                · exact Or.inl hc
                · refine Or.inr (comments_stripMcp_subset_aset kvs _ ?_ c hc)
                  intro old hold c' hc'
                  rw [hmcp] at hold
                  cases hold
                  simp [stripServersVal, jComments] at hc'
            · simp [jFalsy, hn] at h
          | str s =>
            by_cases hs : s = ""
            · subst hs
              simp only [jFalsy, beq_self_eq_true, if_true, Except.ok.injEq] at h
              subst h
              refine ⟨?_, ?_, ?_⟩
              · intro k hk
                simp [jGet, fsTopGet, aget_aset_ne _ _ _ _ hk]
              · intro k hk
                simp [jGet2, jGet, fsGet2, aget_aset_self, hmcp, aget, Ne.symm hk]
              · intro c hc
                simp only [fsStripMcpServers, jComments, List.mem_append] at hc ⊢
                rcases hc with hc | hc
                · exact Or.inl hc
                · refine Or.inr (comments_stripMcp_subset_aset kvs _ ?_ c hc)
                  intro old hold c' hc'
                  rw [hmcp] at hold
                  cases hold
                  simp [stripServersVal, jComments] at hc'
            · simp [jFalsy, hs] at h
      | arr xs =>
        simp only [opencodeWriteConfig, Except.ok.injEq] at h
        subst h
        refine ⟨?_, ?_, ?_⟩
        · intro k hk
          simp [jGet, fsTopGet]
        · intro k hk
          simp [jGet2, jGet, fsGet2]
        · intro c hc
          simpa [fsStripMcpServers] using hc
      | null => cases h
      | bool b => cases h
      | num n => cases h
      | str s => cases h

/-- Witness for C1 at concrete inputs: an OpenCode write keeps the unrelated
top-level key, the unrelated `mcp` entry and the comments outside the replaced
subtree, and a Claude-Code write keeps an unrelated top-level key. -/
theorem c1_merge_preservation_witness :
    opencodeWriteConfig (.doc c1PreDoc) (.obj [("echo", .str "e")] []) = .ok c1OutDoc
    ∧ jGet c1OutDoc "theme" = some (.str "dark")
    ∧ jGet2 c1OutDoc "mcp" "keep" = some (.num 1)
    ∧ "top note" ∈ jComments c1OutDoc
    ∧ jGet (.obj [("otherSetting", .str "value"), ("mcpServers", .obj [] [])] []) "otherSetting"
        = some (.str "value") := by
  have h : opencodeWriteConfig (.doc c1PreDoc) (.obj [("echo", .str "e")] []) = .ok c1OutDoc := rfl
  have main := c1_merge_preservation.2.2.2 (.doc c1PreDoc) (.obj [("echo", .str "e")] []) c1OutDoc h
  refine ⟨h, ?_, ?_, ?_, ?_⟩
  · exact (main.1 "theme" (by decide)).trans rfl
  · exact (main.2.1 "keep" (by decide)).trans rfl
  · refine main.2.2 "top note" ?_
    simp [c1PreDoc, fsStripMcpServers, stripMcpEntries, stripServersVal, adel,
      jComments, jCommentsEntries]
  · exact (c1_merge_preservation.1 (.doc (.obj [("otherSetting", .str "value")] []))
      (.obj [] []) (.obj [("otherSetting", .str "value"), ("mcpServers", .obj [] [])] [])
      "otherSetting" rfl (by decide)).trans rfl

/-- C1 counterexample: a comment attached inside the replaced `mcp.servers`
subtree is present before an OpenCode write and absent afterwards. -/
theorem c1_opencode_comment_loss_cex :
    opencodeWriteConfig (.doc c1CommentDoc) (.obj [] [])
      = .ok (.obj [("mcp", .obj [("servers", .obj [] [])] [])] [])
    ∧ "keep me" ∈ jComments c1CommentDoc
    ∧ "keep me" ∉ jComments (.obj [("mcp", .obj [("servers", .obj [] [])] [])] []) := by
  refine ⟨rfl, ?_, ?_⟩
  · simp [c1CommentDoc, jComments, jCommentsEntries]
  · simp [jComments, jCommentsEntries]

/-- C3 (amended): every Claude-Desktop operation called with `scope="project"`
fails with the unsupported-scope error — except `addServer` with a non-stdio
server, which skips the server (returning successfully with the state
untouched) before any scope check; `addServer` with a stdio server fails like
the rest. -/
theorem c3_desktop_scope_rejection :
    (∀ ctx : PathCtx, ∃ msg, claudeDesktopGetConfigPath ctx .project = .error (.unsupportedScope msg))
    ∧ (∀ (ctx : PathCtx) (st : FS), ∃ msg,
        claudeDesktopReadConfig ctx .project st = .error (.unsupportedScope msg))
    ∧ (∀ (ctx : PathCtx) (st : FS) (servers : J), ∃ msg,
        claudeDesktopWriteConfig ctx .project st servers = .error (.unsupportedScope msg))
    ∧ (∀ (ctx : PathCtx) (st : FS), ∃ msg,
        claudeDesktopListInstalled ctx .project st = .error (.unsupportedScope msg))
    ∧ (∀ (ctx : PathCtx) (st : FS) (k : String), ∃ msg,
        claudeDesktopRemoveServer ctx .project st k = .error (.unsupportedScope msg))
    ∧ (∀ (ctx : PathCtx) (st : FS) (server : NormalizedServer) c a e w,
        server.transport = .stdio c a e w → ∃ msg,
        claudeDesktopAddServer ctx .project st server = .error (.unsupportedScope msg))
    ∧ (∀ (ctx : PathCtx) (st : FS) (server : NormalizedServer),
        transportCommand server.transport = none →
        claudeDesktopAddServer ctx .project st server = .ok st) := by
  refine ⟨?_, ?_, ?_, ?_, ?_, ?_, ?_⟩
  · intro ctx
    exact ⟨_, rfl⟩
  · intro ctx st
    exact ⟨_, rfl⟩
  · intro ctx st servers
    exact ⟨_, rfl⟩
  · intro ctx st
    exact ⟨_, rfl⟩
  · intro ctx st k
    exact ⟨_, rfl⟩
  · intro ctx st server c a e w htr
    refine ⟨"Claude Desktop only supports user scope", ?_⟩
    simp only [claudeDesktopAddServer, normalizedToDesktopConfig, htr]
    rfl
  · intro ctx st server hcmd
    cases htr : server.transport with
    | stdio c a e w => rw [htr] at hcmd; cases hcmd
    | http u h => simp [claudeDesktopAddServer, normalizedToDesktopConfig, htr]
    | sse u h => simp [claudeDesktopAddServer, normalizedToDesktopConfig, htr]

/-- Witness for C3's amended statement at concrete inputs. -/
theorem c3_desktop_scope_rejection_witness :
    (∃ msg, claudeDesktopAddServer ctx0 .project .absent
      ⟨"io.github.acme/echo", "echo", none, .stdio "node" ["echo.js"] none none, []⟩
      = .error (.unsupportedScope msg))
    ∧ claudeDesktopAddServer ctx0 .project .absent
        ⟨"io.github.acme/web", "web", none, .http "https://x" none, []⟩ = .ok .absent :=
  ⟨c3_desktop_scope_rejection.2.2.2.2.2.1 ctx0 .absent
      ⟨"io.github.acme/echo", "echo", none, .stdio "node" ["echo.js"] none none, []⟩
      "node" ["echo.js"] none none rfl,
   c3_desktop_scope_rejection.2.2.2.2.2.2 ctx0 .absent
      ⟨"io.github.acme/web", "web", none, .http "https://x" none, []⟩ rfl⟩

/-- C3 counterexample: `addServer` with `scope="project"` and an http server
returns successfully (the transport skip runs before the scope check), so not
every Claude-Desktop operation under project scope fails. -/
theorem c3_desktop_http_skip_cex :
    claudeDesktopAddServer ctx0 .project .absent
      ⟨"io.github.acme/web", "web", none, .http "https://x" none, []⟩ = .ok .absent
    ∧ ∀ e : AdapterError, claudeDesktopAddServer ctx0 .project .absent
        ⟨"io.github.acme/web", "web", none, .http "https://x" none, []⟩ ≠ .error e := by
  constructor
  · rfl
  · intro e h
    cases h

theorem splitOnChar_no_sep {sep : Char} {l : List Char} (h : sep ∉ l) :
    splitOnChar sep l = [l] := by
  induction l with
  | nil => rfl
  | cons c cs ih =>
    have hc : ¬ c = sep := fun hh => h (hh ▸ List.mem_cons_self c cs)
    have hcs : sep ∉ cs := fun hh => h (List.mem_cons_of_mem c hh)
    simp only [splitOnChar, if_neg hc, ih hcs]

theorem aset_self_of_aget {α : Type} {l : List (String × α)} {k : String} {v : α}
    (h : aget l k = some v) : aset l k v = l := by
  induction l with
  | nil => cases h
  | cons p t ih =>
    rcases p with ⟨pk, pv⟩
    by_cases hp : pk = k
    · simp only [aget, if_pos hp] at h
      cases h
      simp [aset, hp]
    · simp only [aget, if_neg hp] at h
      simp [aset, hp, ih h]

theorem jSpreadInsert_shape (m : J) (k : String) (v : J) :
    ∃ okvs ocs, jSpreadInsert m k v = .obj okvs ocs ∧ aget okvs k = some v := by
  cases m with
  | obj kvs cs => exact ⟨aset kvs k v, cs, rfl, aget_aset_self kvs k v⟩
  | null => exact ⟨[(k, v)], [], rfl, by simp [aget]⟩
  | bool b => exact ⟨[(k, v)], [], rfl, by simp [aget]⟩
  | num n => exact ⟨[(k, v)], [], rfl, by simp [aget]⟩
  | str s => exact ⟨[(k, v)], [], rfl, by simp [aget]⟩
  | arr xs => exact ⟨[(k, v)], [], rfl, by simp [aget]⟩

theorem addServer_entry_json (path : String) (st : FS) (key : String) (servers cfg : J)
    (name : String) (out : J)
    (hw : writeServerMap st key (jSpreadInsert servers name cfg) = .ok out) :
    FS.doc out = st
    ∨ ∃ okvs ocs, jSpreadInsert servers name cfg = .obj okvs ocs ∧ aget okvs name = some cfg
        ∧ readServerMap path (.doc out) key = .ok (.obj okvs ocs) := by
  obtain ⟨okvs, ocs, hshape, hname⟩ := jSpreadInsert_shape servers name cfg
  cases st with
  | absent =>
    simp only [writeServerMap, Except.ok.injEq] at hw
    subst hw
    refine Or.inr ⟨okvs, ocs, hshape, hname, ?_⟩
    simp [readServerMap, serversOf, jGet, aget, hshape, jFalsy]
  | corrupt =>
    simp only [writeServerMap, Except.ok.injEq] at hw
    subst hw
    refine Or.inr ⟨okvs, ocs, hshape, hname, ?_⟩
    simp [readServerMap, serversOf, jGet, aget, hshape, jFalsy]
  | doc j =>
    cases j with
    | obj kvs cs =>
      simp only [writeServerMap, Except.ok.injEq] at hw
      subst hw
      refine Or.inr ⟨okvs, ocs, hshape, hname, ?_⟩
      simp [readServerMap, serversOf, jGet, aget_aset_self, hshape, jFalsy]
    | arr xs =>
      simp only [writeServerMap, Except.ok.injEq] at hw
      subst hw
      exact Or.inl rfl
    | null => cases hw
    | bool b => cases hw
    | num n => cases hw
    | str s => cases hw

theorem opencode_addServer_entry (st : FS) (servers cfg : J) (name : String) (out : J)
    (hw : opencodeWriteConfig st (jSpreadInsert servers name cfg) = .ok out) :
    FS.doc out = st
    ∨ ∃ okvs ocs, jSpreadInsert servers name cfg = .obj okvs ocs ∧ aget okvs name = some cfg
        ∧ ∀ ctx scope, opencodeReadConfig ctx scope (.doc out) = .ok (.obj okvs ocs) := by
  obtain ⟨okvs, ocs, hshape, hname⟩ := jSpreadInsert_shape servers name cfg
  cases st with
  | absent =>
    simp only [opencodeWriteConfig, Except.ok.injEq] at hw
    subst hw
    refine Or.inr ⟨okvs, ocs, hshape, hname, fun ctx scope => ?_⟩
    simp [opencodeReadConfig, jGet, aget, hshape, jFalsy]
  | corrupt =>
    simp only [opencodeWriteConfig, Except.ok.injEq] at hw
    subst hw
    refine Or.inr ⟨okvs, ocs, hshape, hname, fun ctx scope => ?_⟩
    simp [opencodeReadConfig, jGet, aget, hshape, jFalsy]
  | doc j =>
    cases j with
    | obj kvs cs =>
      simp only [opencodeWriteConfig] at hw
      cases hmcp : aget kvs "mcp" with
      | none =>
        rw [hmcp] at hw
        simp only [Except.ok.injEq] at hw
        subst hw
        refine Or.inr ⟨okvs, ocs, hshape, hname, fun ctx scope => ?_⟩
        simp [opencodeReadConfig, jGet, aget_aset_self, aget, hshape, jFalsy]
      | some mv =>
        rw [hmcp] at hw
        cases mv with
        | obj ikvs ics =>
          simp only [Except.ok.injEq] at hw
          subst hw
          refine Or.inr ⟨okvs, ocs, hshape, hname, fun ctx scope => ?_⟩
          simp [opencodeReadConfig, jGet, aget_aset_self, hshape, jFalsy]
        | arr xs =>
          simp only [Except.ok.injEq] at hw
          subst hw
          rw [aset_self_of_aget hmcp]
          exact Or.inl rfl
        | null =>
          simp only [jFalsy, if_true, Except.ok.injEq] at hw
          subst hw
          refine Or.inr ⟨okvs, ocs, hshape, hname, fun ctx scope => ?_⟩
          simp [opencodeReadConfig, jGet, aget_aset_self, aget, hshape, jFalsy]
        | bool b =>
          cases b with
          | true => simp [jFalsy] at hw
          | false =>
            simp only [jFalsy, Bool.not_false, if_true, Except.ok.injEq] at hw
            subst hw
            refine Or.inr ⟨okvs, ocs, hshape, hname, fun ctx scope => ?_⟩
            simp [opencodeReadConfig, jGet, aget_aset_self, aget, hshape, jFalsy]
        | num n =>
          by_cases hn : n = 0
          · subst hn
            simp only [jFalsy, beq_self_eq_true, if_true, Except.ok.injEq] at hw
            subst hw
            refine Or.inr ⟨okvs, ocs, hshape, hname, fun ctx scope => ?_⟩
            simp [opencodeReadConfig, jGet, aget_aset_self, aget, hshape, jFalsy]
          · simp [jFalsy, hn] at hw
        | str s =>
          by_cases hs : s = ""
          · subst hs
            simp only [jFalsy, beq_self_eq_true, if_true, Except.ok.injEq] at hw
            subst hw
            refine Or.inr ⟨okvs, ocs, hshape, hname, fun ctx scope => ?_⟩
            simp [opencodeReadConfig, jGet, aget_aset_self, aget, hshape, jFalsy]
          · simp [jFalsy, hs] at hw
    | arr xs =>
      simp only [opencodeWriteConfig, Except.ok.injEq] at hw
      subst hw
      exact Or.inl rfl
    | null => cases hw
    | bool b => cases hw
    | num n => cases hw
    | str s => cases hw

theorem claudeCodeAddServer_ok {ctx : PathCtx} {scope : Scope} {st st' : FS}
    {server : NormalizedServer} (h : claudeCodeAddServer ctx scope st server = .ok st') :
    ∃ servers out, claudeCodeReadConfig ctx scope st = .ok servers
      ∧ claudeCodeWriteConfig st
          (jSpreadInsert servers (serverNameOf server.id) (normalizedToClaudeConfig server)) = .ok out
      ∧ st' = .doc out := by
  simp only [claudeCodeAddServer, bind, Except.bind, pure, Except.pure] at h
  split at h
  next e heq => cases h
  next servers heq =>
    split at h
    next e2 heq2 => cases h
    next out heq2 =>
      cases h
      exact ⟨servers, out, heq, heq2, rfl⟩

theorem claudeDesktopAddServer_ok {ctx : PathCtx} {scope : Scope} {st st' : FS}
    {server : NormalizedServer} (h : claudeDesktopAddServer ctx scope st server = .ok st') :
    (normalizedToDesktopConfig server = none ∧ st' = st)
    ∨ ∃ cfg servers out, normalizedToDesktopConfig server = some cfg
        ∧ claudeDesktopReadConfig ctx scope st = .ok servers
        ∧ claudeDesktopWriteConfig ctx scope st
            (jSpreadInsert servers (serverNameOf server.id) cfg) = .ok out
        ∧ st' = .doc out := by
  simp only [claudeDesktopAddServer] at h
  cases hcfg : normalizedToDesktopConfig server with
  | none =>
    rw [hcfg] at h
    cases h
    exact Or.inl ⟨rfl, rfl⟩
  | some cfg =>
    rw [hcfg] at h
    simp only [bind, Except.bind, pure, Except.pure] at h
    split at h
    next e heq => cases h
    next servers heq =>
      split at h
      next e2 heq2 => cases h
      next out heq2 =>
        cases h
        exact Or.inr ⟨cfg, servers, out, rfl, heq, heq2, rfl⟩

theorem codexAddServer_ok {ctx : PathCtx} {scope : Scope} {st st' : FS}
    {server : NormalizedServer} (h : codexAddServer ctx scope st server = .ok st') :
    ∃ servers out, codexReadConfig ctx scope st = .ok servers
      ∧ codexWriteConfig st
          (jSpreadInsert servers (serverNameOf server.id) (normalizedToCodexConfig server)) = .ok out
      ∧ st' = .doc out := by
  simp only [codexAddServer, bind, Except.bind, pure, Except.pure] at h
  split at h
  next e heq => cases h
  next servers heq =>
    split at h
    next e2 heq2 => cases h
    next out heq2 =>
      cases h
      exact ⟨servers, out, heq, heq2, rfl⟩

theorem opencodeAddServer_ok {ctx : PathCtx} {scope : Scope} {st st' : FS}
    {server : NormalizedServer} (h : opencodeAddServer ctx scope st server = .ok st') :
    ∃ servers out, opencodeReadConfig ctx scope st = .ok servers
      ∧ opencodeWriteConfig st
          (jSpreadInsert servers (serverNameOf server.id) (normalizedToOpencodeConfig server)) = .ok out
      ∧ st' = .doc out := by
  simp only [opencodeAddServer, bind, Except.bind, pure, Except.pure] at h
  split at h
  next e heq => cases h
  next servers heq =>
    split at h
    next e2 heq2 => cases h
    next out heq2 =>
      cases h
      exact ⟨servers, out, heq, heq2, rfl⟩

theorem claudeDesktopWriteConfig_ok {ctx : PathCtx} {scope : Scope} {st : FS}
    {servers out : J} (h : claudeDesktopWriteConfig ctx scope st servers = .ok out) :
    writeServerMap st "mcpServers" servers = .ok out := by
  cases scope with
  | project => cases h
  | user => simpa [claudeDesktopWriteConfig, claudeDesktopGetConfigPath] using h

/-- C7 (amended): every adapter installs under
`server.id.split('/').pop() || server.id`: the text after the final `/` when
that text is nonempty (or taken as the whole id when no `/` occurs), but the
WHOLE id — not the empty string — when the id ends in `/`, because `pop()`
then yields `''`, which is falsy.  A successful `addServer` either leaves the
file state unchanged (states whose server map cannot be placed, or the
desktop skip) or produces a config whose server map has an entry under that
name. -/
theorem c7_installed_name :
    (∀ id : String, ('/' : Char) ∉ id.toList → serverNameOf id = id)
    ∧ (∀ id : String, claimedInstalledName id ≠ "" → serverNameOf id = claimedInstalledName id)
    ∧ (∀ id : String, claimedInstalledName id = "" → serverNameOf id = id)
    ∧ (∀ (a : Agent) (ctx : PathCtx) (scope : Scope) (st : FS) (server : NormalizedServer)
        (st' : FS), addServerOf a ctx scope st server = .ok st' →
        st' = st ∨ ∃ servers cfg, readConfigOf a ctx scope st' = .ok servers
          ∧ jGet servers (serverNameOf server.id) = some cfg) := by
  have hmk : ∀ id : String, String.mk id.toList = id := fun id => rfl
  refine ⟨?_, ?_, ?_, ?_⟩
  · intro id hid
    unfold serverNameOf
    rw [splitOnChar_no_sep hid]
    simp only [List.getLastD, hmk]
    by_cases h0 : id = "" <;> simp [h0]
  · intro id hcl
    by_cases hs : '/' ∈ id.toList
    · unfold serverNameOf claimedInstalledName at *
      rw [if_pos hs] at hcl ⊢
      simp only [if_neg hcl]
    · unfold serverNameOf claimedInstalledName at *
      rw [if_neg hs] at hcl ⊢
      rw [splitOnChar_no_sep hs]
      simp only [List.getLastD, hmk]
      by_cases h0 : id = "" <;> simp [h0]
  · intro id hcl
    by_cases hs : '/' ∈ id.toList
    · unfold serverNameOf claimedInstalledName at *
      rw [if_pos hs] at hcl
      rw [hcl]
      simp
    · unfold serverNameOf claimedInstalledName at *
      rw [if_neg hs] at hcl
      rw [splitOnChar_no_sep hs]
      simp only [List.getLastD, hmk]
      simp [hcl]
  · intro a ctx scope st server st' h
    cases a with
    | claudeCode =>
      obtain ⟨servers, out, hr, hw, hst'⟩ := claudeCodeAddServer_ok h
      subst hst'
      rcases addServer_entry_json (claudeCodeGetConfigPath ctx scope) st "mcpServers" servers
          (normalizedToClaudeConfig server) (serverNameOf server.id) out hw with hl | ⟨okvs, ocs, hsh, hn, hread⟩
      · exact Or.inl hl
      · refine Or.inr ⟨.obj okvs ocs, normalizedToClaudeConfig server, hread, ?_⟩
        simpa [jGet] using hn
    | claudeDesktop =>
      rcases claudeDesktopAddServer_ok h with ⟨_, hst'⟩ | ⟨cfg, servers, out, hcfg, hr, hw, hst'⟩
      · exact Or.inl hst'
      · subst hst'
        rcases addServer_entry_json (claudeDesktopConfigPath ctx) st "mcpServers" servers
            cfg (serverNameOf server.id) out (claudeDesktopWriteConfig_ok hw) with hl | ⟨okvs, ocs, hsh, hn, hread⟩
        · exact Or.inl hl
        · refine Or.inr ⟨.obj okvs ocs, cfg, ?_, by simpa [jGet] using hn⟩
          cases scope with
          | project => cases hw
          | user => simpa [readConfigOf, claudeDesktopReadConfig, claudeDesktopGetConfigPath] using hread
    | codex =>
      obtain ⟨servers, out, hr, hw, hst'⟩ := codexAddServer_ok h
      subst hst'
      rcases addServer_entry_json (codexGetConfigPath ctx scope) st "mcp_servers" servers
          (normalizedToCodexConfig server) (serverNameOf server.id) out hw with hl | ⟨okvs, ocs, hsh, hn, hread⟩
      · exact Or.inl hl
      · refine Or.inr ⟨.obj okvs ocs, normalizedToCodexConfig server, hread, ?_⟩
        simpa [jGet] using hn
    | opencode =>
      obtain ⟨servers, out, hr, hw, hst'⟩ := opencodeAddServer_ok h
      subst hst'
      rcases opencode_addServer_entry st servers (normalizedToOpencodeConfig server)
          (serverNameOf server.id) out hw with hl | ⟨okvs, ocs, hsh, hn, hread⟩
      · exact Or.inl hl
      · refine Or.inr ⟨.obj okvs ocs, normalizedToOpencodeConfig server, hread ctx scope, ?_⟩
        simpa [jGet] using hn

/-- Witness for C7's amended statement at concrete inputs. -/
theorem c7_installed_name_witness :
    serverNameOf "abc" = "abc"
    ∧ serverNameOf "io.github.acme/echo" = "echo"
    ∧ (FS.doc c7OutDoc = FS.absent
        ∨ ∃ servers cfg, readConfigOf .claudeCode ctx0 .user (.doc c7OutDoc) = .ok servers
            ∧ jGet servers (serverNameOf "io.github.acme/echo") = some cfg) :=
  ⟨c7_installed_name.1 "abc" (by decide),
   (c7_installed_name.2.1 "io.github.acme/echo" (by decide)).trans (by decide),
   c7_installed_name.2.2.2 .claudeCode ctx0 .user .absent
     ⟨"io.github.acme/echo", "echo", none, .stdio "node" ["echo.js"] none none, []⟩
     (.doc c7OutDoc) rfl⟩

/-- C7 counterexample: for the id `"abc/"` the text after the final `/` is the
empty string, but the code installs under the WHOLE id (`pop()` yields `''`,
which is falsy, so `|| server.id` applies). -/
theorem c7_trailing_slash_cex :
    claimedInstalledName "abc/" = ""
    ∧ serverNameOf "abc/" = "abc/"
    ∧ addServerOf .claudeCode ctx0 .user .absent
        ⟨"abc/", "abc/", none, .stdio "node" [] none none, []⟩
      = .ok (.doc (.obj [("mcpServers",
          .obj [("abc/", .obj [("type", .str "stdio"), ("command", .str "node"),
            ("args", .arr [])] [])] [])] [])) := by
  refine ⟨by decide, by decide, rfl⟩

/-- C8: for every adapter and supported scope, `readConfig` of an absent file
is an empty-servers success; `readConfig` of an unparseable file fails with
the invalid-config error naming the adapter's config path; and `writeConfig`
over an unparseable file succeeds, treating it as absent. -/
theorem c8_read_write_asymmetry (a : Agent) (ctx : PathCtx) (scope : Scope)
    (hs : scope ∈ supportedScopesOf a) :
    readConfigOf a ctx scope .absent = .ok jEmptyObj
    ∧ (∃ p, getConfigPathOf a ctx scope = .ok p
        ∧ readConfigOf a ctx scope .corrupt = .error (.invalidConfig p))
    ∧ (∀ servers : J, ∃ out, writeConfigOf a ctx scope .corrupt servers = .ok out) := by
  cases a with
  | claudeCode =>
    exact ⟨rfl, ⟨claudeCodeGetConfigPath ctx scope, rfl, rfl⟩, fun servers => ⟨_, rfl⟩⟩
  | claudeDesktop =>
    cases scope with
    | project => simp [supportedScopesOf] at hs
    | user =>
      exact ⟨rfl, ⟨claudeDesktopConfigPath ctx, rfl, rfl⟩, fun servers => ⟨_, rfl⟩⟩
  | codex =>
    exact ⟨rfl, ⟨codexGetConfigPath ctx scope, rfl, rfl⟩, fun servers => ⟨_, rfl⟩⟩
  | opencode =>
    exact ⟨rfl, ⟨opencodeGetConfigPath ctx scope, rfl, rfl⟩, fun servers => ⟨_, rfl⟩⟩

/-- Witness for C8 at concrete inputs (Claude-Desktop under user scope). -/
theorem c8_read_write_asymmetry_witness :
    (Scope.user ∈ supportedScopesOf .claudeDesktop)
    ∧ readConfigOf .claudeDesktop ctx0 .user .absent = .ok jEmptyObj
    ∧ (∃ p, getConfigPathOf .claudeDesktop ctx0 .user = .ok p
        ∧ readConfigOf .claudeDesktop ctx0 .user .corrupt = .error (.invalidConfig p))
    ∧ (∀ servers : J, ∃ out, writeConfigOf .claudeDesktop ctx0 .user .corrupt servers = .ok out) :=
  ⟨by decide,
   (c8_read_write_asymmetry .claudeDesktop ctx0 .user (by decide)).1,
   (c8_read_write_asymmetry .claudeDesktop ctx0 .user (by decide)).2.1,
   (c8_read_write_asymmetry .claudeDesktop ctx0 .user (by decide)).2.2⟩

theorem aget_map_snd {β : Type} (l : List (String × J)) (f : String → J → β) (k : String) :
    aget (l.map (fun p => (p.1, f p.1 p.2))) k = (aget l k).map (f k) := by
  induction l with
  | nil => rfl
  | cons hd t ih =>
    by_cases h : hd.1 = k
    · subst h
      simp [aget]
    · simp [aget, h, ih]

theorem entryOrPlaceholder_obj (f : String → J → NormalizedServer) (name : String)
    (kvs : List (String × J)) (cs : List String) :
    entryOrPlaceholder f name (.obj kvs cs) = f name (.obj kvs cs) := rfl

theorem normalizedToClaudeConfig_shape (server : NormalizedServer) :
    ∃ ckvs, normalizedToClaudeConfig server = .obj ckvs [] := by
  unfold normalizedToClaudeConfig
  cases htr : server.transport with
  | stdio c a e w => exact ⟨_, rfl⟩
  | http u h => exact ⟨_, rfl⟩
  | sse u h => exact ⟨_, rfl⟩

theorem normalizedToCodexConfig_shape (server : NormalizedServer) :
    ∃ ckvs, normalizedToCodexConfig server = .obj ckvs [] := by
  unfold normalizedToCodexConfig
  cases htr : server.transport with
  | stdio c a e w => exact ⟨_, rfl⟩
  | http u h => exact ⟨_, rfl⟩
  | sse u h => exact ⟨_, rfl⟩

theorem normalizedToOpencodeConfig_shape (server : NormalizedServer) :
    ∃ ckvs, normalizedToOpencodeConfig server = .obj ckvs [] := by
  unfold normalizedToOpencodeConfig
  cases htr : server.transport with
  | stdio c a e w => exact ⟨_, rfl⟩
  | http u h => exact ⟨_, rfl⟩
  | sse u h => exact ⟨_, rfl⟩

theorem roundTripState_cases {a : Agent} {st : FS} (h : roundTripState a st = true) :
    st = .absent ∨ ∃ kvs cs, st = .doc (.obj kvs cs) := by
  cases st with
  | absent => exact Or.inl rfl
  | corrupt => simp [roundTripState] at h
  | doc j =>
    cases j with
    | obj kvs cs => exact Or.inr ⟨kvs, cs, rfl⟩
    | null => cases a <;> simp [roundTripState] at h
    | bool b => cases a <;> simp [roundTripState] at h
    | num n => cases a <;> simp [roundTripState] at h
    | str s => cases a <;> simp [roundTripState] at h
    | arr xs => cases a <;> simp [roundTripState] at h

theorem readServerMap_ok_of_state {st : FS}
    (h : st = .absent ∨ ∃ kvs cs, st = .doc (.obj kvs cs)) (path key : String) :
    ∃ m, readServerMap path st key = .ok m := by
  rcases h with rfl | ⟨kvs, cs, rfl⟩
  · exact ⟨_, rfl⟩
  · exact ⟨_, rfl⟩

theorem writeServerMap_ok_of_state {st : FS}
    (h : st = .absent ∨ ∃ kvs cs, st = .doc (.obj kvs cs)) (key : String) (ns : J) :
    ∃ out, writeServerMap st key ns = .ok out := by
  rcases h with rfl | ⟨kvs, cs, rfl⟩
  · exact ⟨_, rfl⟩
  · exact ⟨_, rfl⟩

theorem writeServerMap_readback {st : FS} {key : String} {nkvs : List (String × J)}
    {ncs : List String} {out : J}
    (hst : st = .absent ∨ ∃ kvs cs, st = .doc (.obj kvs cs))
    (hw : writeServerMap st key (.obj nkvs ncs) = .ok out) (path : String) :
    readServerMap path (.doc out) key = .ok (.obj nkvs ncs) := by
  rcases hst with rfl | ⟨kvs, cs, rfl⟩
  · simp only [writeServerMap, Except.ok.injEq] at hw
    subst hw
    simp [readServerMap, serversOf, jGet, aget, jFalsy]
  · simp only [writeServerMap, Except.ok.injEq] at hw
    subst hw
    simp [readServerMap, serversOf, jGet, aget_aset_self, jFalsy]

theorem opencodeWriteConfig_ok_of_state {st : FS}
    (hst : roundTripState .opencode st = true) (ns : J) :
    ∃ out, opencodeWriteConfig st ns = .ok out := by
  cases st with
  | absent => exact ⟨_, rfl⟩
  | corrupt => simp [roundTripState] at hst
  | doc j =>
    cases j with
    | obj kvs cs =>
      simp only [roundTripState, mcpSlotOk] at hst
      simp only [opencodeWriteConfig]
      cases hmcp : aget kvs "mcp" with
      | none => exact ⟨_, rfl⟩
      | some mv =>
        rw [hmcp] at hst
        cases mv with
        | obj ikvs ics => exact ⟨_, rfl⟩
        | arr xs => simp [jFalsy] at hst
        | null =>
          exact ⟨.obj (aset kvs "mcp" (.obj [("servers", ns)] [])) cs, by simp [jFalsy]⟩
        | bool b =>
          cases b with
          | true => simp [jFalsy] at hst
          | false =>
            exact ⟨.obj (aset kvs "mcp" (.obj [("servers", ns)] [])) cs, by simp [jFalsy]⟩
        | num n =>
          by_cases hn : n = 0
          · subst hn
            exact ⟨.obj (aset kvs "mcp" (.obj [("servers", ns)] [])) cs, by simp [jFalsy]⟩
          · simp [jFalsy, hn] at hst
        | str s =>
          by_cases hs : s = ""
          · subst hs
            exact ⟨.obj (aset kvs "mcp" (.obj [("servers", ns)] [])) cs, by simp [jFalsy]⟩
          · simp [jFalsy, hs] at hst
    | null => simp [roundTripState] at hst
    | bool b => simp [roundTripState] at hst
    | num n => simp [roundTripState] at hst
    | str s => simp [roundTripState] at hst
    | arr xs => simp [roundTripState] at hst

theorem opencodeWriteConfig_readback {st : FS} {nkvs : List (String × J)}
    {ncs : List String} {out : J}
    (hst : roundTripState .opencode st = true)
    (hw : opencodeWriteConfig st (.obj nkvs ncs) = .ok out) (ctx : PathCtx) (scope : Scope) :
    opencodeReadConfig ctx scope (.doc out) = .ok (.obj nkvs ncs) := by
  cases st with
  | absent =>
    simp only [opencodeWriteConfig, Except.ok.injEq] at hw
    subst hw
    simp [opencodeReadConfig, jGet, aget, jFalsy]
  | corrupt => simp [roundTripState] at hst
  | doc j =>
    cases j with
    | obj kvs cs =>
      simp only [roundTripState, mcpSlotOk] at hst
      simp only [opencodeWriteConfig] at hw
      cases hmcp : aget kvs "mcp" with
      | none =>
        rw [hmcp] at hw
        simp only [Except.ok.injEq] at hw
        subst hw
        simp [opencodeReadConfig, jGet, aget_aset_self, aget, jFalsy]
      | some mv =>
        rw [hmcp] at hst hw
        cases mv with
        | obj ikvs ics =>
          simp only [Except.ok.injEq] at hw
          subst hw
          simp [opencodeReadConfig, jGet, aget_aset_self, jFalsy]
        | arr xs => simp [jFalsy] at hst
        | null =>
          simp only [jFalsy, if_true, Except.ok.injEq] at hw
          subst hw
          simp [opencodeReadConfig, jGet, aget_aset_self, aget, jFalsy]
        | bool b =>
          cases b with
          | true => simp [jFalsy] at hst
          | false =>
            simp only [jFalsy, Bool.not_false, if_true, Except.ok.injEq] at hw
            subst hw
            simp [opencodeReadConfig, jGet, aget_aset_self, aget, jFalsy]
        | num n =>
          by_cases hn : n = 0
          · subst hn
            simp only [jFalsy, beq_self_eq_true, if_true, Except.ok.injEq] at hw
            subst hw
            simp [opencodeReadConfig, jGet, aget_aset_self, aget, jFalsy]
          · simp [jFalsy, hn] at hst
        | str s =>
          by_cases hs : s = ""
          · subst hs
            simp only [jFalsy, beq_self_eq_true, if_true, Except.ok.injEq] at hw
            subst hw
            simp [opencodeReadConfig, jGet, aget_aset_self, aget, jFalsy]
          · simp [jFalsy, hs] at hst
    | null => simp [roundTripState] at hst
    | bool b => simp [roundTripState] at hst
    | num n => simp [roundTripState] at hst
    | str s => simp [roundTripState] at hst
    | arr xs => simp [roundTripState] at hst

theorem claudeCode_pipeline (ctx : PathCtx) (scope : Scope) (st : FS)
    (server : NormalizedServer) (hst : roundTripState .claudeCode st = true) :
    ∃ st' installed, claudeCodeAddServer ctx scope st server = .ok st'
      ∧ claudeCodeListInstalled ctx scope st' = .ok installed
      ∧ aget installed (serverNameOf server.id)
          = some (claudeConfigToNormalized (serverNameOf server.id)
              (normalizedToClaudeConfig server)) := by
  have hstate := roundTripState_cases hst
  obtain ⟨m, hm⟩ := readServerMap_ok_of_state hstate (claudeCodeGetConfigPath ctx scope) "mcpServers"
  obtain ⟨okvs, ocs, hsh, hn⟩ :=
    jSpreadInsert_shape m (serverNameOf server.id) (normalizedToClaudeConfig server)
  obtain ⟨out, hw⟩ := writeServerMap_ok_of_state hstate "mcpServers"
    (jSpreadInsert m (serverNameOf server.id) (normalizedToClaudeConfig server))
  rw [hsh] at hw
  have hread := writeServerMap_readback hstate hw (claudeCodeGetConfigPath ctx scope)
  obtain ⟨ckvs, hck⟩ := normalizedToClaudeConfig_shape server
  refine ⟨.doc out,
    okvs.map (fun p => (p.1, entryOrPlaceholder claudeConfigToNormalized p.1 p.2)),
    ?_, ?_, ?_⟩
  · simp [claudeCodeAddServer, bind, Except.bind, pure, Except.pure,
      claudeCodeReadConfig, hm, hsh, claudeCodeWriteConfig, hw]
  · simp [claudeCodeListInstalled, jEntries, bind, Except.bind, pure, Except.pure,
      claudeCodeReadConfig, hread]
  · rw [aget_map_snd, hn, hck]
    rfl

theorem claudeDesktop_pipeline (ctx : PathCtx) (st : FS) (server : NormalizedServer)
    (cfg : J) (hcfg : normalizedToDesktopConfig server = some cfg)
    (hst : roundTripState .claudeDesktop st = true) :
    ∃ st' installed, claudeDesktopAddServer ctx .user st server = .ok st'
      ∧ claudeDesktopListInstalled ctx .user st' = .ok installed
      ∧ aget installed (serverNameOf server.id)
          = some (desktopConfigToNormalized (serverNameOf server.id) cfg) := by
  have hstate := roundTripState_cases hst
  obtain ⟨m, hm⟩ := readServerMap_ok_of_state hstate (claudeDesktopConfigPath ctx) "mcpServers"
  obtain ⟨okvs, ocs, hsh, hn⟩ := jSpreadInsert_shape m (serverNameOf server.id) cfg
  obtain ⟨out, hw⟩ := writeServerMap_ok_of_state hstate "mcpServers"
    (jSpreadInsert m (serverNameOf server.id) cfg)
  rw [hsh] at hw
  have hread := writeServerMap_readback hstate hw (claudeDesktopConfigPath ctx)
  have hcfgobj : ∃ ckvs, cfg = J.obj ckvs [] := by
    revert hcfg
    unfold normalizedToDesktopConfig
    cases htr : server.transport with
    | stdio c a e w =>
      intro hcfg
      cases hcfg
      exact ⟨_, rfl⟩
    | http u h => intro hcfg; cases hcfg
    | sse u h => intro hcfg; cases hcfg
  obtain ⟨ckvs, hck⟩ := hcfgobj
  refine ⟨.doc out,
    okvs.map (fun p => (p.1, entryOrPlaceholder desktopConfigToNormalized p.1 p.2)),
    ?_, ?_, ?_⟩
  · simp [claudeDesktopAddServer, hcfg, bind, Except.bind, pure, Except.pure,
      claudeDesktopReadConfig, claudeDesktopGetConfigPath, hm, hsh,
      claudeDesktopWriteConfig, hw]
  · simp [claudeDesktopListInstalled, jEntries, bind, Except.bind, pure, Except.pure,
      claudeDesktopReadConfig, claudeDesktopGetConfigPath, hread]
  · rw [aget_map_snd, hn, hck]
    rfl

theorem codex_pipeline (ctx : PathCtx) (scope : Scope) (st : FS)
    (server : NormalizedServer) (hst : roundTripState .codex st = true) :
    ∃ st' installed, codexAddServer ctx scope st server = .ok st'
      ∧ codexListInstalled ctx scope st' = .ok installed
      ∧ aget installed (serverNameOf server.id)
          = some (codexConfigToNormalized (serverNameOf server.id)
              (normalizedToCodexConfig server)) := by
  have hstate := roundTripState_cases hst
  obtain ⟨m, hm⟩ := readServerMap_ok_of_state hstate (codexGetConfigPath ctx scope) "mcp_servers"
  obtain ⟨okvs, ocs, hsh, hn⟩ :=
    jSpreadInsert_shape m (serverNameOf server.id) (normalizedToCodexConfig server)
  obtain ⟨out, hw⟩ := writeServerMap_ok_of_state hstate "mcp_servers"
    (jSpreadInsert m (serverNameOf server.id) (normalizedToCodexConfig server))
  rw [hsh] at hw
  have hread := writeServerMap_readback hstate hw (codexGetConfigPath ctx scope)
  obtain ⟨ckvs, hck⟩ := normalizedToCodexConfig_shape server
  refine ⟨.doc out,
    okvs.map (fun p => (p.1, entryOrPlaceholder codexConfigToNormalized p.1 p.2)),
    ?_, ?_, ?_⟩
  · simp [codexAddServer, bind, Except.bind, pure, Except.pure,
      codexReadConfig, hm, hsh, codexWriteConfig, hw]
  · simp [codexListInstalled, jEntries, bind, Except.bind, pure, Except.pure,
      codexReadConfig, hread]
  · rw [aget_map_snd, hn, hck]
    rfl

theorem opencode_pipeline (ctx : PathCtx) (scope : Scope) (st : FS)
    (server : NormalizedServer) (hst : roundTripState .opencode st = true) :
    ∃ st' installed, opencodeAddServer ctx scope st server = .ok st'
      ∧ opencodeListInstalled ctx scope st' = .ok installed
      ∧ aget installed (serverNameOf server.id)
          = some (opencodeConfigToNormalized (serverNameOf server.id)
              (normalizedToOpencodeConfig server)) := by
  have hstate := roundTripState_cases hst
  have hmr : ∃ m, opencodeReadConfig ctx scope st = .ok m := by
    rcases hstate with rfl | ⟨kvs, cs, rfl⟩
    · exact ⟨_, rfl⟩
    · exact ⟨_, rfl⟩
  obtain ⟨m, hm⟩ := hmr
  obtain ⟨okvs, ocs, hsh, hn⟩ :=
    jSpreadInsert_shape m (serverNameOf server.id) (normalizedToOpencodeConfig server)
  obtain ⟨out, hw⟩ := opencodeWriteConfig_ok_of_state hst
    (jSpreadInsert m (serverNameOf server.id) (normalizedToOpencodeConfig server))
  rw [hsh] at hw
  have hread := opencodeWriteConfig_readback hst hw ctx scope
  obtain ⟨ckvs, hck⟩ := normalizedToOpencodeConfig_shape server
  refine ⟨.doc out,
    okvs.map (fun p => (p.1, entryOrPlaceholder opencodeConfigToNormalized p.1 p.2)),
    ?_, ?_, ?_⟩
  · simp [opencodeAddServer, bind, Except.bind, pure, Except.pure, hm, hsh, hw]
  · simp [opencodeListInstalled, jEntries, bind, Except.bind, pure, Except.pure, hread]
  · rw [aget_map_snd, hn, hck]
    rfl

theorem jStrOr_some_str (s : String) : jStrOr (some (.str s)) = s := rfl

theorem jStrOpt_some_str (s : String) : jStrOpt (some (.str s)) = some s := rfl

theorem jStrOpt_none : jStrOpt none = none := rfl

theorem jStrMapOr_none : jStrMapOr none = none := rfl

theorem jStrListOr_none : jStrListOr none = [] := rfl

theorem map_jStrOr_of_strings (a : List String) :
    (a.map J.str).map (fun x => jStrOr (some x)) = a := by
  induction a with
  | nil => rfl
  | cons x t ih =>
    simp only [List.map_cons]
    rw [ih]
    rfl

theorem map_jStrOr_comp (a : List String) :
    List.map ((fun x => jStrOr (some x)) ∘ J.str) a = a := by
  induction a with
  | nil => rfl
  | cons x t ih =>
    simp only [List.map_cons]
    rw [ih]
    rfl

theorem claudeCode_fields (nm : String) (server : NormalizedServer) :
    transportCommand (claudeConfigToNormalized nm (normalizedToClaudeConfig server)).transport
      = transportCommand server.transport
    ∧ transportArgs (claudeConfigToNormalized nm (normalizedToClaudeConfig server)).transport
      = transportArgs server.transport
    ∧ transportEnv (claudeConfigToNormalized nm (normalizedToClaudeConfig server)).transport
      = transportEnv server.transport
    ∧ transportUrl (claudeConfigToNormalized nm (normalizedToClaudeConfig server)).transport
      = transportUrl server.transport
    ∧ transportHeaders (claudeConfigToNormalized nm (normalizedToClaudeConfig server)).transport
      = transportHeaders server.transport := by
  unfold normalizedToClaudeConfig
  cases htr : server.transport with
  | stdio c a e w =>
    cases e <;> cases w <;>
      simp [claudeConfigToNormalized, jGet, aget, jStrOr_some_str, jStrListOr_of_strings,
        jStrMapOr_jOfStrMap, jStrMapOr_none, jStrOpt_some_str, jStrOpt_none,
        map_jStrOr_of_strings, map_jStrOr_comp, transportCommand, transportArgs,
        transportEnv, transportUrl, transportHeaders]
  | http u h =>
    cases h <;>
      simp [claudeConfigToNormalized, jGet, aget, jStrOr_some_str, jStrMapOr_jOfStrMap,
        jStrMapOr_none, transportCommand, transportArgs, transportEnv,
        transportUrl, transportHeaders]
  | sse u h =>
    cases h <;>
      simp [claudeConfigToNormalized, jGet, aget, jStrOr_some_str, jStrMapOr_jOfStrMap,
        jStrMapOr_none, transportCommand, transportArgs, transportEnv,
        transportUrl, transportHeaders]

theorem claudeDesktop_fields (nm : String) (server : NormalizedServer) (cfg : J)
    (hcfg : normalizedToDesktopConfig server = some cfg) :
    transportCommand (desktopConfigToNormalized nm cfg).transport
      = transportCommand server.transport
    ∧ transportArgs (desktopConfigToNormalized nm cfg).transport
      = transportArgs server.transport
    ∧ transportEnv (desktopConfigToNormalized nm cfg).transport
      = transportEnv server.transport
    ∧ transportUrl (desktopConfigToNormalized nm cfg).transport
      = transportUrl server.transport
    ∧ transportHeaders (desktopConfigToNormalized nm cfg).transport
      = transportHeaders server.transport := by
  revert hcfg
  unfold normalizedToDesktopConfig
  cases htr : server.transport with
  | stdio c a e w =>
    intro hcfg
    cases hcfg
    cases e <;>
      simp [desktopConfigToNormalized, jGet, aget, jStrOr_some_str, jStrListOr_of_strings,
        jStrMapOr_jOfStrMap, jStrMapOr_none, map_jStrOr_of_strings, map_jStrOr_comp,
        transportCommand, transportArgs, transportEnv, transportUrl, transportHeaders]
  | http u h => intro hcfg; cases hcfg
  | sse u h => intro hcfg; cases hcfg

theorem codex_fields (nm : String) (server : NormalizedServer)
    (hc : (∃ c ar e w, server.transport = .stdio c ar e w)
        ∨ (transportHeaders server.transport = none
            ∧ ∃ u, transportUrl server.transport = some u ∧ u ≠ "")) :
    transportCommand (codexConfigToNormalized nm (normalizedToCodexConfig server)).transport
      = transportCommand server.transport
    ∧ transportArgs (codexConfigToNormalized nm (normalizedToCodexConfig server)).transport
      = transportArgs server.transport
    ∧ transportEnv (codexConfigToNormalized nm (normalizedToCodexConfig server)).transport
      = transportEnv server.transport
    ∧ transportUrl (codexConfigToNormalized nm (normalizedToCodexConfig server)).transport
      = transportUrl server.transport
    ∧ transportHeaders (codexConfigToNormalized nm (normalizedToCodexConfig server)).transport
      = transportHeaders server.transport := by
  unfold normalizedToCodexConfig
  cases htr : server.transport with
  | stdio c a e w =>
    cases e <;> cases w <;>
      simp [codexConfigToNormalized, codexStdioNormalized, jGet, aget, jStrOr_some_str,
        jStrListOr_of_strings, jStrMapOr_jOfStrMap, jStrMapOr_none, jStrOpt_some_str,
        jStrOpt_none, map_jStrOr_of_strings, map_jStrOr_comp, transportCommand,
        transportArgs, transportEnv, transportUrl, transportHeaders]
  | http u h =>
    rcases hc with ⟨c, ar, e, w, habs⟩ | ⟨hh, u', hu', hne⟩
    · rw [htr] at habs; cases habs
    · rw [htr] at hh hu'
      simp only [transportHeaders] at hh
      simp only [transportUrl, Option.some.injEq] at hu'
      subst hh
      have hu : u ≠ "" := by
        rw [hu']
        exact hne
      simp [codexRemoteConfig, codexConfigToNormalized, codexAuthHeaders, jGet, aget, hu,
        transportCommand, transportArgs, transportEnv, transportUrl, transportHeaders]
  | sse u h =>
    rcases hc with ⟨c, ar, e, w, habs⟩ | ⟨hh, u', hu', hne⟩
    · rw [htr] at habs; cases habs
    · rw [htr] at hh hu'
      simp only [transportHeaders] at hh
      simp only [transportUrl, Option.some.injEq] at hu'
      subst hh
      have hu : u ≠ "" := by
        rw [hu']
        exact hne
      simp [codexRemoteConfig, codexConfigToNormalized, codexAuthHeaders, jGet, aget, hu,
        transportCommand, transportArgs, transportEnv, transportUrl, transportHeaders]

theorem opencode_fields (nm : String) (server : NormalizedServer) :
    transportCommand (opencodeConfigToNormalized nm (normalizedToOpencodeConfig server)).transport
      = transportCommand server.transport
    ∧ transportArgs (opencodeConfigToNormalized nm (normalizedToOpencodeConfig server)).transport
      = transportArgs server.transport
    ∧ transportEnv (opencodeConfigToNormalized nm (normalizedToOpencodeConfig server)).transport
      = transportEnv server.transport
    ∧ transportUrl (opencodeConfigToNormalized nm (normalizedToOpencodeConfig server)).transport
      = transportUrl server.transport
    ∧ transportHeaders (opencodeConfigToNormalized nm (normalizedToOpencodeConfig server)).transport
      = transportHeaders server.transport := by
  unfold normalizedToOpencodeConfig
  cases htr : server.transport with
  | stdio c a e w =>
    cases e <;>
      simp [opencodeConfigToNormalized, opencodeCommandHead, opencodeCommandTail, jGet, aget,
        jStrOr_some_str, jStrMapOr_jOfStrMap, jStrMapOr_none, map_jStrOr_of_strings,
        map_jStrOr_comp, transportCommand, transportArgs, transportEnv, transportUrl,
        transportHeaders]
  | http u h =>
    cases h <;>
      simp [opencodeRemoteConfig, opencodeConfigToNormalized, jGet, aget, jStrOr_some_str,
        jStrMapOr_jOfStrMap, jStrMapOr_none, transportCommand, transportArgs, transportEnv,
        transportUrl, transportHeaders]
  | sse u h =>
    cases h <;>
      simp [opencodeRemoteConfig, opencodeConfigToNormalized, jGet, aget, jStrOr_some_str,
        jStrMapOr_jOfStrMap, jStrMapOr_none, transportCommand, transportArgs, transportEnv,
        transportUrl, transportHeaders]

/-- C2 (amended): for every adapter and supported scope, starting from a file
state whose server map the write cycle can read and place (absent, or a JSON
object — with a writable `mcp` slot for OpenCode), `addServer(s)` followed by
`listInstalled()` yields an entry named after the last `/`-segment of `s.id`
whose transport-relevant fields (`command`, `args`, `env`, `url`, `headers`)
equal `s`'s — except that Claude-Desktop requires a stdio server (non-stdio
servers are skipped and produce no entry), and Codex round-trips http/sse
servers only when they carry no headers and a nonempty url (headers are
reduced to an `auth` table and read back as absent; an empty url reads back as
stdio). -/
theorem c2_round_trip (a : Agent) (ctx : PathCtx) (scope : Scope) (st : FS)
    (server : NormalizedServer)
    (hscope : scope ∈ supportedScopesOf a)
    (hst : roundTripState a st = true)
    (hdesktop : a = .claudeDesktop → ∃ c ar e w, server.transport = .stdio c ar e w)
    (hcodex : a = .codex → (∃ c ar e w, server.transport = .stdio c ar e w)
        ∨ (transportHeaders server.transport = none
            ∧ ∃ u, transportUrl server.transport = some u ∧ u ≠ "")) :
    ∃ st' installed s',
      addServerOf a ctx scope st server = .ok st'
      ∧ listInstalledOf a ctx scope st' = .ok installed
      ∧ aget installed (serverNameOf server.id) = some s'
      ∧ transportCommand s'.transport = transportCommand server.transport
      ∧ transportArgs s'.transport = transportArgs server.transport
      ∧ transportEnv s'.transport = transportEnv server.transport
      ∧ transportUrl s'.transport = transportUrl server.transport
      ∧ transportHeaders s'.transport = transportHeaders server.transport := by
  cases a with
  | claudeCode =>
    obtain ⟨st', installed, h1, h2, h3⟩ := claudeCode_pipeline ctx scope st server hst
    obtain ⟨f1, f2, f3, f4, f5⟩ := claudeCode_fields (serverNameOf server.id) server
    exact ⟨st', installed, _, h1, h2, h3, f1, f2, f3, f4, f5⟩
  | claudeDesktop =>
    have hsc : scope = .user := by
      cases scope with
      | project => simp [supportedScopesOf] at hscope
      | user => rfl
    subst hsc
    obtain ⟨c, ar, e, w, htr⟩ := hdesktop rfl
    have hcfg : ∃ cfg, normalizedToDesktopConfig server = some cfg := by
      unfold normalizedToDesktopConfig
      rw [htr]
      exact ⟨_, rfl⟩
    obtain ⟨cfg, hcfg⟩ := hcfg
    obtain ⟨st', installed, h1, h2, h3⟩ := claudeDesktop_pipeline ctx st server cfg hcfg hst
    obtain ⟨f1, f2, f3, f4, f5⟩ :=
      claudeDesktop_fields (serverNameOf server.id) server cfg hcfg
    exact ⟨st', installed, _, h1, h2, h3, f1, f2, f3, f4, f5⟩
  | codex =>
    obtain ⟨st', installed, h1, h2, h3⟩ := codex_pipeline ctx scope st server hst
    obtain ⟨f1, f2, f3, f4, f5⟩ :=
      codex_fields (serverNameOf server.id) server (hcodex rfl)
    exact ⟨st', installed, _, h1, h2, h3, f1, f2, f3, f4, f5⟩
  | opencode =>
    obtain ⟨st', installed, h1, h2, h3⟩ := opencode_pipeline ctx scope st server hst
    obtain ⟨f1, f2, f3, f4, f5⟩ := opencode_fields (serverNameOf server.id) server
    exact ⟨st', installed, _, h1, h2, h3, f1, f2, f3, f4, f5⟩

/-- Witness for C2 at a concrete input (Codex, stdio server, absent file). -/
theorem c2_round_trip_witness :
    (Scope.project ∈ supportedScopesOf .codex)
    ∧ roundTripState .codex .absent = true
    ∧ (∃ st' installed s',
        addServerOf .codex ctx0 .project .absent
          ⟨"io.github.acme/echo", "echo", none,
            .stdio "node" ["echo.js"] (some [("API_KEY", "x")]) none, []⟩ = .ok st'
        ∧ listInstalledOf .codex ctx0 .project st' = .ok installed
        ∧ aget installed (serverNameOf "io.github.acme/echo") = some s'
        ∧ transportCommand s'.transport = some "node"
        ∧ transportArgs s'.transport = some ["echo.js"]
        ∧ transportEnv s'.transport = some [("API_KEY", "x")]) := by
  refine ⟨by decide, by decide, ?_⟩
  obtain ⟨st', installed, s', h1, h2, h3, f1, f2, f3, f4, f5⟩ :=
    c2_round_trip .codex ctx0 .project .absent
      ⟨"io.github.acme/echo", "echo", none,
        .stdio "node" ["echo.js"] (some [("API_KEY", "x")]) none, []⟩
      (by decide) (by decide)
      (fun h => by cases h) (fun _ => Or.inl ⟨_, _, _, _, rfl⟩)
  exact ⟨st', installed, s', h1, h2, h3, f1.trans rfl, f2.trans rfl, f3.trans rfl⟩

/-- C2 counterexample: installing an http server with an `Authorization`
header through Codex and listing it back yields an entry with NO headers —
the round-trip is lossy for headers, so the claim fails as stated. -/
theorem c2_codex_headers_cex :
    addServerOf .codex ctx0 .user .absent
      ⟨"a", "a", none, .http "https://x" (some [("Authorization", "Bearer tok")]), []⟩
      = .ok (.doc c2CodexOutDoc)
    ∧ listInstalledOf .codex ctx0 .user (.doc c2CodexOutDoc)
      = .ok [("a", ⟨"a", "a", none, .http "https://x" none, []⟩)]
    ∧ transportHeaders (Transport.http "https://x" none) = none
    ∧ transportHeaders (Transport.http "https://x" (some [("Authorization", "Bearer tok")]))
      = some [("Authorization", "Bearer tok")] := by
  refine ⟨rfl, rfl, rfl, rfl⟩

/-- C10: an sse server installed through OpenCode and listed back comes out
with transport type `http` (same url and headers) — the `remote` entry type
does not preserve the sse distinction. -/
theorem c10_opencode_sse_reads_as_http (ctx : PathCtx) (scope : Scope) (st : FS)
    (server : NormalizedServer) (u : String) (h : Option (List (String × String)))
    (hst : roundTripState .opencode st = true)
    (htr : server.transport = .sse u h) :
    ∃ st' installed s',
      opencodeAddServer ctx scope st server = .ok st'
      ∧ opencodeListInstalled ctx scope st' = .ok installed
      ∧ aget installed (serverNameOf server.id) = some s'
      ∧ s'.transport = .http u h := by
  obtain ⟨st', installed, h1, h2, h3⟩ := opencode_pipeline ctx scope st server hst
  refine ⟨st', installed, _, h1, h2, h3, ?_⟩
  unfold normalizedToOpencodeConfig
  rw [htr]
  cases h with
  | none =>
    simp [opencodeRemoteConfig, opencodeConfigToNormalized, jGet, aget, jStrOr_some_str,
      jStrMapOr_none]
  | some m =>
    simp [opencodeRemoteConfig, opencodeConfigToNormalized, jGet, aget, jStrOr_some_str,
      jStrMapOr_jOfStrMap]

/-- Witness for C10 at a concrete input. -/
theorem c10_opencode_sse_reads_as_http_witness :
    roundTripState .opencode .absent = true
    ∧ (∃ st' installed s',
        opencodeAddServer ctx0 .project .absent
          ⟨"io.github.acme/stream", "stream", none,
            .sse "https://s" (some [("X-Key", "v")]), []⟩ = .ok st'
        ∧ opencodeListInstalled ctx0 .project st' = .ok installed
        ∧ aget installed (serverNameOf "io.github.acme/stream") = some s'
        ∧ s'.transport = .http "https://s" (some [("X-Key", "v")])) :=
  ⟨by decide,
   c10_opencode_sse_reads_as_http ctx0 .project .absent
     ⟨"io.github.acme/stream", "stream", none, .sse "https://s" (some [("X-Key", "v")]), []⟩
     "https://s" (some [("X-Key", "v")]) (by decide) rfl⟩
